/-
Verification of the cdtoc library: TOC parsing/serialization, validation,
mutators, and the AccurateRip / CDDB / CTDB / MusicBrainz disc-identifier
derivations, embedded shallowly over byte lists (`List Nat`, each entry an
octet) with machine-integer overflow modelled by explicit `% 2^32`.
-/
import Mathlib

set_option maxRecDepth 10000

namespace Cdtoc

instance instDecEqExcept {ε α : Type} [DecidableEq ε] [DecidableEq α] :
    DecidableEq (Except ε α) := fun x y =>
  match x, y with
  | .ok a, .ok b =>
    if h : a = b then isTrue (by rw [h]) else isFalse (fun hh => h (Except.ok.inj hh))
  | .error a, .error b =>
    if h : a = b then isTrue (by rw [h]) else isFalse (fun hh => h (Except.error.inj hh))
  | .ok _, .error _ => isFalse (fun hh => Except.noConfusion hh)
  | .error _, .ok _ => isFalse (fun hh => Except.noConfusion hh)

/-- 2^32, the modulus of Rust `u32` arithmetic. -/
def M32 : Nat := 4294967296

/-- ASCII bytes of a string literal (all our data is ASCII). -/
def asciiBytes (s : String) : List Nat := s.toList.map Char.toNat

/-- Lowercase hex digit for a nibble, as in `faster_hex` (0-9 → '0'-'9', 10-15 → 'a'-'f'). -/
def hexLowerDigit (n : Nat) : Nat := if n < 10 then 48 + n else 87 + n

/-- `faster_hex::hex_encode` of a single byte: two lowercase hex digits. -/
def hexByteLower (b : Nat) : List Nat := [hexLowerDigit (b / 16), hexLowerDigit (b % 16)]

/-- `u32::to_be_bytes`. -/
def beBytes4 (v : Nat) : List Nat :=
  [v / 16777216 % 256, v / 65536 % 256, v / 256 % 256, v % 256]

/-- `u32::to_le_bytes`. -/
def leBytes4 (v : Nat) : List Nat :=
  [v % 256, v / 256 % 256, v / 65536 % 256, v / 16777216 % 256]

/-- Hex encoding of a `u32`'s big-endian bytes: 8 lowercase hex digits. -/
def hex8 (v : Nat) : List Nat := (beBytes4 v).flatMap hexByteLower

/-- `trim_start_matches(b'0')`: drop leading ASCII '0' bytes. -/
def trimStartZeros (l : List Nat) : List Nat := l.dropWhile (fun b => b == 48)

/-- `u8::make_ascii_uppercase` on one byte. -/
def toUpperByte (b : Nat) : Nat := if 97 ≤ b ∧ b ≤ 122 then b - 32 else b

/-- `u8::is_ascii_whitespace`: space, tab, LF, FF, CR. -/
def isWsByte (b : Nat) : Bool := b == 32 || b == 9 || b == 10 || b == 12 || b == 13

/-- `<[u8]>::trim_ascii`: strip leading and trailing ASCII whitespace. -/
def trimAscii (l : List Nat) : List Nat :=
  ((l.dropWhile isWsByte).reverse.dropWhile isWsByte).reverse

/-- `slice::split` with separator `b'+'` (ASCII 43). -/
def splitPlus : List Nat → List (List Nat)
  | [] => [[]]
  | b :: rest =>
    if b = 43 then [] :: splitPlus rest
    else
      match splitPlus rest with
      | g :: gs => (b :: g) :: gs
      | [] => [[b]]

/-- Value of one hex character, case-insensitive (`none` for a non-hex byte). -/
def hexVal (b : Nat) : Option Nat :=
  if 48 ≤ b ∧ b ≤ 57 then some (b - 48)
  else if 65 ≤ b ∧ b ≤ 70 then some (b - 55)
  else if 97 ≤ b ∧ b ≤ 102 then some (b - 87)
  else none

/-- Big-endian hex accumulation over a byte list. -/
def parseHexAcc : Nat → List Nat → Option Nat
  | acc, [] => some acc
  | acc, b :: r =>
    match hexVal b with
    | some d => parseHexAcc (acc * 16 + d) r
    | none => none

/-- Modelled from the spec: the hex primitive `u32::htou` of the `dactyl`
dependency (absent from this repository's sources), §4.1: "decode 1–8 hex
characters to a 32-bit unsigned integer (most-significant digit first, no
prefix, case-insensitive)"; any other input fails. -/
def htou32 (l : List Nat) : Option Nat :=
  if l.length = 0 ∨ 8 < l.length then none else parseHexAcc 0 l

/-- Modelled from the spec: the hex primitive `u8::htou` of the `dactyl`
dependency, §4.1: "decode 1–2 hex characters to a byte". -/
def htou8 (l : List Nat) : Option Nat :=
  if l.length = 0 ∨ 2 < l.length then none else parseHexAcc 0 l

/-- Value of one decimal character. -/
def decVal (b : Nat) : Option Nat :=
  if 48 ≤ b ∧ b ≤ 57 then some (b - 48) else none

/-- Decimal accumulation over a byte list. -/
def parseDecAcc : Nat → List Nat → Option Nat
  | acc, [] => some acc
  | acc, b :: r =>
    match decVal b with
    | some d => parseDecAcc (acc * 10 + d) r
    | none => none

/-- Modelled from the spec: the decimal primitive `u8::btou` of the `dactyl`
dependency, §4.5: the 3-digit decimal track count of an AccurateRip ID string
decodes back to a byte; values exceeding 255 or non-digit bytes fail. -/
def btou8 (l : List Nat) : Option Nat :=
  if l.length = 0 ∨ 3 < l.length then none
  else match parseDecAcc 0 l with
    | some v => if v ≤ 255 then some v else none
    | none => none

/-- `dactyl::NiceU8::as_bytes3`: a byte as exactly three decimal digits. -/
def dec3 (b : Nat) : List Nat := [48 + b / 100, 48 + b / 10 % 10, 48 + b % 10]

/-- Minimal lowercase hex rendering (empty for zero); fuelled recursion,
8 nibbles of fuel covers every `u32`. -/
def minhexAux : Nat → Nat → List Nat
  | 0, _ => []
  | f + 1, v => if v = 0 then [] else minhexAux f (v / 16) ++ [hexLowerDigit (v % 16)]

/-- Minimal lowercase hex rendering of a `u32` (empty for zero). -/
def minhex (v : Nat) : List Nat := minhexAux 8 v

/-- `itoa`-style minimal decimal rendering ("0" for zero); 10 digits cover `u32`. -/
def decMinAux : Nat → Nat → List Nat
  | 0, _ => []
  | f + 1, v => if v = 0 then [] else decMinAux f (v / 10) ++ [48 + v % 10]

/-- `itoa::Buffer::format` of a `u32`. -/
def decMin (v : Nat) : List Nat := if v = 0 then [48] else decMinAux 10 v

/-- `chunks_exact(4)` over a list, as full quadruples. -/
def chunks4 {α : Type} : List α → List (α × α × α × α)
  | a :: b :: c :: d :: r => (a, b, c, d) :: chunks4 r
  | _ => []

/-- The remainder left over by `chunks_exact(4)`. -/
def rem4 {α : Type} : List α → List α
  | _ :: _ :: _ :: _ :: r => rem4 r
  | r => r

/-- `chunks_exact(3)` over a list, as full triples. -/
def chunks3 {α : Type} : List α → List (α × α × α)
  | a :: b :: c :: r => (a, b, c) :: chunks3 r
  | _ => []

end Cdtoc

namespace Cdtoc

/-! ## SHA1 (dependency `sha1`, used by the MusicBrainz and CTDB IDs) -/

/-- Rotate a 32-bit word left by `n`. -/
def rotl (n x : Nat) : Nat := ((x <<< n) ||| (x >>> (32 - n))) % M32

/-- 64 message bytes as 16 big-endian 32-bit words. -/
def sha1Words : List Nat → List Nat
  | a :: b :: c :: d :: r => (a * 16777216 + b * 65536 + c * 256 + d) :: sha1Words r
  | _ => []

/-- Extend the 16 words to 80, working on the reversed word list. -/
def sha1Extend : Nat → List Nat → List Nat
  | 0, acc => acc
  | f + 1, acc =>
    sha1Extend f
      (rotl 1 ((acc.getD 2 0) ^^^ (acc.getD 7 0) ^^^ (acc.getD 13 0) ^^^ (acc.getD 15 0)) :: acc)

/-- The 80 compression rounds; `i` is the round index. -/
def sha1Rounds : Nat → Nat × Nat × Nat × Nat × Nat → List Nat → Nat × Nat × Nat × Nat × Nat
  | _, st, [] => st
  | i, (a, b, c, d, e), w :: ws =>
    let fk : Nat × Nat :=
      if i < 20 then ((b &&& c) ||| ((b ^^^ 4294967295) &&& d), 1518500249)
      else if i < 40 then (b ^^^ c ^^^ d, 1859775393)
      else if i < 60 then ((b &&& c) ||| (b &&& d) ||| (c &&& d), 2400959708)
      else (b ^^^ c ^^^ d, 3395469782)
    let temp := (rotl 5 a + fk.1 + e + fk.2 + w) % M32
    sha1Rounds (i + 1) (temp, a, rotl 30 b, c, d) ws

/-- One 64-byte block folded into the running state. -/
def sha1Block (h : Nat × Nat × Nat × Nat × Nat) (block : List Nat) :
    Nat × Nat × Nat × Nat × Nat :=
  let ws := ((sha1Extend 64 (sha1Words block).reverse)).reverse
  let (a, b, c, d, e) := sha1Rounds 0 h ws
  ((h.1 + a) % M32, (h.2.1 + b) % M32, (h.2.2.1 + c) % M32,
    (h.2.2.2.1 + d) % M32, (h.2.2.2.2 + e) % M32)

/-- Fold `fuel` 64-byte blocks of the padded message into the state. -/
def sha1Blocks : Nat → Nat × Nat × Nat × Nat × Nat → List Nat → Nat × Nat × Nat × Nat × Nat
  | 0, h, _ => h
  | f + 1, h, msg => sha1Blocks f (sha1Block h (msg.take 64)) (msg.drop 64)

/-- SHA1 padding: 0x80, zeros to 56 mod 64, then the 64-bit big-endian bit length. -/
def sha1Pad (msg : List Nat) : List Nat :=
  let len := msg.length
  let zeros := (120 - (len + 1) % 64) % 64
  let bits := len * 8
  msg ++ [128] ++ List.replicate zeros 0 ++
    [bits / 72057594037927936 % 256, bits / 281474976710656 % 256,
     bits / 1099511627776 % 256, bits / 4294967296 % 256,
     bits / 16777216 % 256, bits / 65536 % 256, bits / 256 % 256, bits % 256]

/-- SHA1 digest of a byte list, as 20 bytes. -/
def sha1 (msg : List Nat) : List Nat :=
  let padded := sha1Pad msg
  let (h0, h1, h2, h3, h4) :=
    sha1Blocks (padded.length / 64) (1732584193, 4023233417, 2562383102, 271733878, 3285377520)
      padded
  beBytes4 h0 ++ beBytes4 h1 ++ beBytes4 h2 ++ beBytes4 h3 ++ beBytes4 h4

end Cdtoc

namespace Cdtoc

/-! ## The TOC data model (src/lib.rs) -/

/-- `TocKind`: audio-only, mixed with trailing data, or mixed with leading data. -/
inductive TocKind
  | Audio
  | CDExtra
  | DataFirst
deriving DecidableEq, Repr

/-- `TocError` (src/error.rs). -/
inductive TocError
  | CDDASampleCount
  | CDTOCChars
  | Checksums
  | Format (kind : TocKind)
  | LeadinSize
  | NoAudio
  | NoChecksums
  | SectorCount (expected found : Nat)
  | SectorOrder
  | SectorSize
  | TrackCount
  | AccurateRipDecode
  | DriveOffsetDecode
  | NoDriveOffsets
  | CddbDecode
  | ShaB64Decode
deriving DecidableEq, Repr

/-- `TocKind::has_data`. -/
def TocKind.has_data : TocKind → Bool
  | .CDExtra | .DataFirst => true
  | .Audio => false

/-- `Toc`: kind, audio track start sectors, data sector, leadout sector. -/
structure Toc where
  kind : TocKind
  audio : List Nat
  data : Nat
  leadout : Nat
deriving DecidableEq, Repr

/-- `audio.windows(2).any(|pair| pair[1] <= pair[0])`. -/
def anyOutOfOrder : List Nat → Bool
  | a :: b :: r => (b ≤ a) || anyOutOfOrder (b :: r)
  | _ => false

/-- `Toc::from_parts`: validate and classify the raw parts. -/
def Toc.from_parts (audio : List Nat) (data : Option Nat) (leadout : Nat) :
    Except TocError Toc :=
  let audio_len := audio.length
  if audio_len = 0 then .error .NoAudio
  else if 99 < audio_len then .error .TrackCount
  else if audio.headD 0 < 150 then .error .LeadinSize
  else if (1 < audio_len ∧ anyOutOfOrder audio = true) ∨ leadout ≤ audio.getLastD 0 then
    .error .SectorOrder
  else match data with
    | some d =>
      if d < audio.headD 0 then .ok ⟨.DataFirst, audio, d, leadout⟩
      else if audio.getLastD 0 < d ∧ d < leadout then .ok ⟨.CDExtra, audio, d, leadout⟩
      else .error .SectorOrder
    | none => .ok ⟨.Audio, audio, 0, leadout⟩

/-- `<[u8]>::strip_prefix` with a one-byte pattern. -/
def stripPrefixByte (p : Nat) : List Nat → Option (List Nat)
  | b :: r => if b = p then some r else none
  | [] => none

/-- `parse_cdtoc_metadata`: split a CDTOC tag on '+' and extract the audio
track count, audio sectors, optional data sector and leadout. -/
def parse_cdtoc_metadata (src : List Nat) : Except TocError (List Nat × Option Nat × Nat) :=
  let src := trimAscii src
  match splitPlus src with
  | [] => .error .TrackCount
  | g0 :: rest =>
    match htou8 g0 with
    | none => .error .TrackCount
    | some audio_len =>
      match (rest.take audio_len).mapM htou32 with
      | none => .error .SectorSize
      | some sectors =>
        let sectors_len := sectors.length
        if sectors_len = 0 then .error .NoAudio
        else if sectors_len ≠ audio_len then .error (.SectorCount audio_len sectors_len)
        else
          match rest.drop audio_len with
          | [] => .error (.SectorCount audio_len (sectors_len - 1))
          | last1g :: rest2 =>
            match htou32 last1g with
            | none => .error .SectorSize
            | some l1 =>
              match rest2 with
              | [] => .ok (sectors, none, l1)
              | last2g :: rest3 =>
                match (htou32 last2g).orElse
                    (fun _ => ((stripPrefixByte 88 last2g).orElse
                      (fun _ => stripPrefixByte 120 last2g)).bind htou32) with
                | none => .error .SectorSize
                | some l2 =>
                  if rest3.length = 0 then
                    if l1 < l2 then .ok (sectors, some l1, l2)
                    else .ok (sectors, some l2, l1)
                  else .error (.SectorCount audio_len (sectors_len + rest3.length))

/-- `Toc::from_cdtoc`: parse then validate. -/
def Toc.from_cdtoc (src : List Nat) : Except TocError Toc :=
  match parse_cdtoc_metadata src with
  | .ok (audio, data, leadout) => Toc.from_parts audio data leadout
  | .error e => .error e

/-- One '+'-prefixed serialized sector group (hex with leading zeros trimmed). -/
def pushGroup (v : Nat) : List Nat := 43 :: trimStartZeros (hex8 v)

/-- `impl fmt::Display for Toc`, as the ASCII bytes written out. -/
def Toc.displayBytes (t : Toc) : List Nat :=
  let audio_len := t.audio.length % 256
  let countPart :=
    (if 16 ≤ audio_len then [hexLowerDigit (audio_len / 16)] else []) ++
      [hexLowerDigit (audio_len % 16)]
  let body := countPart ++ t.audio.flatMap pushGroup ++
    (match t.kind with
     | .Audio => pushGroup t.leadout
     | .CDExtra => pushGroup t.data ++ pushGroup t.leadout
     | .DataFirst => pushGroup t.leadout ++ [43, 88] ++ trimStartZeros (hex8 t.data))
  body.map toUpperByte

/-- The data argument that rebuilds `t` through `Toc::from_parts`. -/
def Toc.dataOpt (t : Toc) : Option Nat := if t.kind = .Audio then none else some t.data

/-- The kind-specific part of the §3 invariants. -/
def kindInvariant (kind : TocKind) (audio : List Nat) (data leadout : Nat) : Prop :=
  match kind with
  | .Audio => data = 0
  | .CDExtra => audio.getLastD 0 < data ∧ data < leadout
  | .DataFirst => data < audio.headD 0

instance (kind : TocKind) (audio : List Nat) (data leadout : Nat) :
    Decidable (kindInvariant kind audio data leadout) := by
  cases kind <;> · unfold kindInvariant; exact inferInstance

/-- The §3 invariants of a validated `Toc`, together with the `u32` range
constraints the Rust types impose. -/
def Toc.Valid (t : Toc) : Prop :=
  1 ≤ t.audio.length ∧ t.audio.length ≤ 99 ∧
  t.audio.Pairwise (· < ·) ∧
  150 ≤ t.audio.headD 0 ∧
  t.audio.getLastD 0 < t.leadout ∧
  (∀ v ∈ t.audio, v < M32) ∧ t.data < M32 ∧ t.leadout < M32 ∧
  kindInvariant t.kind t.audio t.data t.leadout

instance (t : Toc) : Decidable t.Valid := by unfold Toc.Valid; exact inferInstance

/-- `Toc::audio_leadin`. -/
def Toc.audio_leadin (t : Toc) : Nat := t.audio.headD 150

/-- `Toc::has_data`. -/
def Toc.has_data (t : Toc) : Bool := t.kind.has_data

/-- `Toc::audio_leadout`: for CD-Extra, the data sector minus the 11400-sector
gap (saturating); otherwise the disc leadout. -/
def Toc.audio_leadout (t : Toc) : Nat :=
  if t.kind = .CDExtra then t.data - 11400 else t.leadout

/-- `u32` wrapping subtraction (both arguments below 2^32). -/
def sub32 (a b : Nat) : Nat := (a + M32 - b) % M32

/-- `Toc::duration` in sectors: the u32 difference of audio leadout and leadin. -/
def Toc.duration (t : Toc) : Nat := sub32 t.audio_leadout t.audio_leadin

/-- `Toc::leadin`. -/
def Toc.leadin (t : Toc) : Nat :=
  if t.kind = .DataFirst then t.data else t.audio_leadin

/-- The in-place nudge-up loop of `Toc::set_audio_leadin`: each entry gets
`diff` added with a checked add; on overflow the loop stops early, leaving the
prefix already modified (`false` reports the failure). -/
def nudgeUp (diff : Nat) : List Nat → List Nat × Bool
  | [] => ([], true)
  | v :: r =>
    if v + diff < M32 then
      let step := nudgeUp diff r
      ((v + diff) :: step.1, step.2)
    else (v :: r, false)

/-- `Toc::set_audio_leadin`, with the mutated receiver returned alongside the
`Result` (an early error can leave the receiver partially shifted, exactly as
the sequential Rust mutation does). -/
def Toc.set_audio_leadin (t : Toc) (leadin : Nat) : Except TocError Unit × Toc :=
  if leadin < 150 then (.error .LeadinSize, t)
  else if t.kind = .DataFirst then (.error (.Format .DataFirst), t)
  else
    let current := t.audio_leadin
    if leadin < current then
      let diff := current - leadin
      (.ok (), { t with
        audio := t.audio.map (fun v => v - diff),
        data := if t.has_data then t.data - diff else t.data,
        leadout := t.leadout - diff })
    else if current < leadin then
      let diff := leadin - current
      let step := nudgeUp diff t.audio
      if step.2 then
        if t.has_data then
          if t.data + diff < M32 then
            if t.leadout + diff < M32 then
              (.ok (), { t with audio := step.1, data := t.data + diff,
                                leadout := t.leadout + diff })
            else (.error .SectorSize, { t with audio := step.1, data := t.data + diff })
          else (.error .SectorSize, { t with audio := step.1 })
        else
          if t.leadout + diff < M32 then
            (.ok (), { t with audio := step.1, leadout := t.leadout + diff })
          else (.error .SectorSize, { t with audio := step.1 })
      else (.error .SectorSize, { t with audio := step.1 })
    else (.ok (), t)

/-- `Toc::set_kind`, with the mutated receiver returned alongside the `Result`. -/
def Toc.set_kind (t : Toc) (kind : TocKind) : Except TocError Unit × Toc :=
  match t.kind, kind with
  | .Audio, .CDExtra =>
    if t.audio.length = 1 then (.error .NoAudio, t)
    else (.ok (), { t with kind := .CDExtra, audio := t.audio.dropLast,
                           data := t.audio.getLastD 0 })
  | .Audio, .DataFirst =>
    if t.audio.length = 1 then (.error .NoAudio, t)
    else (.ok (), { t with kind := .DataFirst, audio := t.audio.tail,
                           data := t.audio.headD 0 })
  | .CDExtra, .Audio =>
    (.ok (), { t with kind := .Audio, audio := t.audio ++ [t.data], data := 0 })
  | .DataFirst, .Audio =>
    (.ok (), { t with kind := .Audio, audio := t.data :: t.audio, data := 0 })
  | .CDExtra, .DataFirst =>
    (.ok (), { t with kind := .DataFirst, audio := (t.audio ++ [t.data]).tail,
                      data := (t.audio ++ [t.data]).headD 0 })
  | .DataFirst, .CDExtra =>
    (.ok (), { t with kind := .CDExtra, audio := (t.data :: t.audio).dropLast,
                      data := (t.data :: t.audio).getLastD 0 })
  | _, _ => (.ok (), t)

/-- `TrackPosition` (src/track.rs). -/
inductive TrackPosition
  | Invalid
  | First
  | Middle
  | Last
  | Only
deriving DecidableEq, Repr

/-- `TrackPosition::from((num, len))`. -/
def TrackPosition.ofPair (num len : Nat) : TrackPosition :=
  if num = 0 ∨ len < num then .Invalid
  else if num = 1 then (if len = 1 then .Only else .First)
  else if num = len then .Last
  else .Middle

/-- `Track` (src/track.rs): number, disc position, and half-open sector range. -/
structure Track where
  num : Nat
  pos : TrackPosition
  sectorFrom : Nat
  sectorTo : Nat
deriving DecidableEq, Repr

/-- `Track::sectors`: the u32 difference of the track's bounds. -/
def Track.sectors (tr : Track) : Nat := sub32 tr.sectorTo tr.sectorFrom

/-- `Toc::audio_track`. -/
def Toc.audio_track (t : Toc) (num : Nat) : Option Track :=
  let len := t.audio.length
  if num = 0 ∨ len < num then none
  else some {
    num := num % 256,
    pos := .ofPair num len,
    sectorFrom := t.audio.getD (num - 1) 0,
    sectorTo := if num < len then t.audio.getD num 0 else t.audio_leadout }

end Cdtoc

namespace Cdtoc

/-! ## CDDB ID (src/cddb.rs) -/

/-- `Toc::data_sector`. -/
def Toc.data_sector (t : Toc) : Option Nat :=
  if t.kind.has_data then some t.data else none

/-- Sum of `b ^ b'0'` over the `itoa`-rendered decimal digits of a value. -/
def digitSum (v : Nat) : Nat := ((decMin v).map (fun b => b ^^^ 48)).sum

/-- `impl From<&Toc> for Cddb`: the packed 32-bit CDDB identifier. -/
def Toc.cddb_id (t : Toc) : Nat :=
  let len := t.audio.length + (if t.data_sector.isSome then 1 else 0)
  let a := (t.audio.map (fun v => digitSum (v / 75))).sum +
    (match t.data_sector with
     | some v => digitSum (v / 75)
     | none => 0)
  let aa := a % 255
  let bb := sub32 (t.leadout / 75) (t.leadin / 75) % 65536
  let cc := len % 256
  aa * 16777216 + bb * 256 + cc

/-- `impl fmt::Display for Cddb`: 8 lowercase hex digits. -/
def Cddb.displayBytes (v : Nat) : List Nat := hex8 v

/-- `Cddb::decode`. -/
def Cddb.decode (src : List Nat) : Except TocError Nat :=
  match htou32 src with
  | some v => .ok v
  | none => .error .CddbDecode

/-! ## AccurateRip ID (src/accuraterip.rs) -/

/-- The per-track accumulation loop of `From<&Toc> for AccurateRip`,
carrying `(b, c, idx)` with wrapping `u32` adds. -/
def arFold : List Nat → Nat × Nat × Nat → Nat × Nat × Nat
  | [], st => st
  | v :: r, (b, c, idx) =>
    arFold r ((b + (v - 150)) % M32, (c + max (v - 150) 1 * idx) % M32, idx + 1)

/-- `impl From<&Toc> for AccurateRip`: the 13-byte identifier. -/
def AccurateRip.fromToc (t : Toc) : List Nat :=
  let st := arFold t.audio (0, 0, 1)
  let leadout := t.leadout - 150
  let b := (st.1 + leadout) % M32
  let c := (st.2.1 + max leadout 1 * st.2.2) % M32
  let d := t.cddb_id
  [t.audio.length % 256] ++ leBytes4 b ++ leBytes4 c ++ leBytes4 d

/-- `AccurateRip::encode`: the 30-byte display form
"DDD-hhhhhhhh-hhhhhhhh-hhhhhhhh". -/
def AccurateRip.encode (id : List Nat) : List Nat :=
  dec3 (id.getD 0 0) ++ [45] ++
  hexByteLower (id.getD 4 0) ++ hexByteLower (id.getD 3 0) ++
  hexByteLower (id.getD 2 0) ++ hexByteLower (id.getD 1 0) ++ [45] ++
  hexByteLower (id.getD 8 0) ++ hexByteLower (id.getD 7 0) ++
  hexByteLower (id.getD 6 0) ++ hexByteLower (id.getD 5 0) ++ [45] ++
  hexByteLower (id.getD 12 0) ++ hexByteLower (id.getD 11 0) ++
  hexByteLower (id.getD 10 0) ++ hexByteLower (id.getD 9 0)

/-- `AccurateRip::decode`. -/
def AccurateRip.decode (src : List Nat) : Except TocError (List Nat) :=
  if src.length = 30 ∧ src.getD 3 0 = 45 ∧ src.getD 12 0 = 45 ∧ src.getD 21 0 = 45 then
    match btou8 (src.take 3), htou32 ((src.drop 4).take 8),
        htou32 ((src.drop 13).take 8), htou32 (src.drop 22) with
    | some a, some b, some c, some d =>
      .ok ([a] ++ leBytes4 b ++ leBytes4 c ++ leBytes4 d)
    | _, _, _, _ => .error .AccurateRipDecode
  else .error .AccurateRipDecode

/-! ## ShaB64 codec (src/shab64.rs) -/

/-- `base64_encode`: the modified alphabet with '.' and '_' in slots 62/63. -/
def base64Encode (byte : Nat) : Nat :=
  if byte ≤ 25 then byte + 65
  else if byte ≤ 51 then byte + 71
  else if byte ≤ 61 then byte - 4
  else if byte = 62 then 46
  else 95

/-- `base64_decode`. -/
def base64Decode (byte : Nat) : Except TocError Nat :=
  if 65 ≤ byte ∧ byte ≤ 90 then .ok (byte - 65)
  else if 97 ≤ byte ∧ byte ≤ 122 then .ok (byte - 71)
  else if 48 ≤ byte ∧ byte ≤ 57 then .ok (byte + 4)
  else if byte = 46 then .ok 62
  else if byte = 95 then .ok 63
  else .error .ShaB64Decode

/-- `impl fmt::Display for ShaB64`: 28 bytes, trailing '-'. -/
def ShaB64.displayBytes (d : List Nat) : List Nat :=
  (chunks3 d).flatMap (fun g =>
    [base64Encode (g.1 >>> 2),
     base64Encode ((g.1 &&& 3) <<< 4 ||| g.2.1 >>> 4),
     base64Encode ((g.2.1 &&& 15) <<< 2 ||| g.2.2 >>> 6),
     base64Encode (g.2.2 &&& 63)]) ++
  [base64Encode (d.getD 18 0 >>> 2),
   base64Encode ((d.getD 18 0 &&& 3) <<< 4 ||| d.getD 19 0 >>> 4),
   base64Encode ((d.getD 19 0 &&& 15) <<< 2),
   45]

/-- One four-character group of `ShaB64::decode`. -/
def decGroup4 (g : Nat × Nat × Nat × Nat) : Except TocError (List Nat) := do
  let a ← base64Decode g.1
  let b ← base64Decode g.2.1
  let c ← base64Decode g.2.2.1
  let d ← base64Decode g.2.2.2
  .ok [(a &&& 63) <<< 2 ||| b >>> 4, (b &&& 15) <<< 4 ||| c >>> 2,
    (c &&& 3) <<< 6 ||| (d &&& 63)]

/-- `ShaB64::decode`. -/
def ShaB64.decode (src : List Nat) : Except TocError (List Nat) :=
  if src.length = 28 ∧ src.getD 27 0 = 45 then do
    let groups ← (chunks4 (src.take 24)).mapM decGroup4
    let a ← base64Decode (src.getD 24 0)
    let b ← base64Decode (src.getD 25 0)
    let c ← base64Decode (src.getD 26 0)
    .ok (groups.flatten ++
      [(a &&& 63) <<< 2 ||| b >>> 4, (b &&& 15) <<< 4 ||| c >>> 2])
  else .error .ShaB64Decode

/-! ## MusicBrainz ID (src/musicbrainz.rs) -/

/-- Uppercase every byte. -/
def upperAll (l : List Nat) : List Nat := l.map toUpperByte

/-- The exact byte stream `Toc::musicbrainz_id` feeds to SHA1: the "01" tag,
hex track count and leadout, then the sector positions hex-encoded in batches
of four plus a remainder, then zero padding. -/
def mbMessage (t : Toc) : List Nat :=
  let header := [48, 49] ++ upperAll (hexByteLower (t.audio.length % 256)) ++
    upperAll (hex8 t.audio_leadout)
  let sectors := t.audio
  let batched := (chunks4 sectors).flatMap (fun g =>
    upperAll (hex8 g.1 ++ hex8 g.2.1 ++ hex8 g.2.2.1 ++ hex8 g.2.2.2))
  let remainder := upperAll ((rem4 sectors).flatMap hex8)
  header ++ batched ++ remainder ++ List.replicate ((99 - sectors.length) * 8) 48

/-- `Toc::musicbrainz_id`: the SHA1 digest (a `ShaB64` value, 20 bytes). -/
def Toc.musicbrainz_id (t : Toc) : List Nat := sha1 (mbMessage t)

/-! ## CTDB ID (src/ctdb.rs) -/

/-- The exact byte stream `Toc::ctdb_id` feeds to SHA1: every audio sector
after the first, minus the leadin, then the audio leadout minus the leadin,
hex-encoded in batches of four plus a remainder, then zero padding. -/
def ctdbMessage (t : Toc) : List Nat :=
  let leadin := t.audio.headD 0
  let sectors := t.audio.tail
  let len := sectors.length
  let rem := len % 4
  let batched := (chunks4 sectors).flatMap (fun g =>
    upperAll (hex8 (g.1 - leadin) ++ hex8 (g.2.1 - leadin) ++
      hex8 (g.2.2.1 - leadin) ++ hex8 (g.2.2.2 - leadin)))
  let tailPart :=
    if rem = 0 then upperAll (hex8 (t.audio_leadout - leadin))
    else upperAll ((((rem4 sectors).map (fun v => v - leadin)) ++
      [t.audio_leadout - leadin]).flatMap hex8)
  batched ++ tailPart ++ List.replicate ((99 - len) * 8) 48

/-- `Toc::ctdb_id`: the SHA1 digest (a `ShaB64` value, 20 bytes). -/
def Toc.ctdb_id (t : Toc) : List Nat := sha1 (ctdbMessage t)

/-! ## CTDB checksum-XML parsing (src/ctdb.rs) -/

/-- `slice::split` with a given separator byte. -/
def splitByte (sep : Nat) : List Nat → List (List Nat)
  | [] => [[]]
  | b :: rest =>
    if b = sep then [] :: splitByte sep rest
    else
      match splitByte sep rest with
      | g :: gs => (b :: g) :: gs
      | [] => [[b]]

/-- `str::lines`: split on LF, dropping one trailing empty line and a
trailing CR on each line. -/
def rustLines (src : List Nat) : List (List Nat) :=
  if src = [] then []
  else
    let parts := splitByte 10 src
    let parts := if parts.getLast? = some [] then parts.dropLast else parts
    parts.map (fun ln => if ln.getLast? = some 13 then ln.dropLast else ln)

/-- `str::split_ascii_whitespace` (accumulator holds the current token reversed). -/
def splitWsAux : List Nat → List Nat → List (List Nat)
  | cur, [] => if cur = [] then [] else [cur.reverse]
  | cur, b :: r =>
    if isWsByte b then
      if cur = [] then splitWsAux [] r else cur.reverse :: splitWsAux [] r
    else splitWsAux (b :: cur) r

/-- `str::split_ascii_whitespace`. -/
def splitWs (l : List Nat) : List (List Nat) := splitWsAux [] l

/-- `str::find` of a substring: index of its first occurrence. -/
def findSub (pat : List Nat) : List Nat → Option Nat
  | [] => if pat = [] then some 0 else none
  | b :: r =>
    if pat.isPrefixOf (b :: r) then some 0
    else (findSub pat r).map (fun i => i + 1)

/-- `parse_attr`: the naive attribute-value extraction. -/
def parse_attr (line : List Nat) (attr : List Nat) : Option (List Nat) := do
  let start ← findSub attr line
  let rest := line.drop (start + attr.length)
  let endIdx ← rest.findIdx? (fun b => b == 34)
  if 0 < endIdx then some (trimAscii (rest.take endIdx)) else none

/-- `parse_entry`: the confidence and trackcrcs attribute values of an
"<entry " line. -/
def parse_entry (line : List Nat) : Option (List Nat × List Nat) :=
  if (asciiBytes "<entry ").isPrefixOf line then do
    let confidence ← parse_attr line (asciiBytes " confidence=\"")
    let crcs ← parse_attr line (asciiBytes " trackcrcs=\"")
    some (confidence, crcs)
  else none

/-- `str::parse::<u16>` restricted to plain digit strings. -/
def parseU16 (l : List Nat) : Option Nat :=
  if l.length = 0 then none
  else match parseDecAcc 0 l with
    | some v => if v ≤ 65535 then some v else none
    | none => none

/-- `BTreeMap::entry(crc).or_insert(0)` followed by a saturating u16 add. -/
def bumpEntry : List (Nat × Nat) → Nat → Nat → List (Nat × Nat)
  | [], crc, conf => [(crc, min conf 65535)]
  | (k, v) :: r, crc, conf =>
    if k = crc then (k, min (v + conf) 65535) :: r
    else (k, v) :: bumpEntry r crc conf

/-- The inner checksum loop of `Toc::ctdb_parse_checksums`; the outer `none`
models the Rust panic raised by the out-of-range `out[id]` index. -/
def applyCrcs (confidence : Nat) : List (List Nat) → Nat → List (List (Nat × Nat)) →
    Option (Except TocError (Nat × List (List (Nat × Nat))))
  | [], id, out => some (.ok (id, out))
  | chk :: rest, id, out =>
    match htou32 chk with
    | none => some (.error .Checksums)
    | some crc =>
      if crc = 0 then applyCrcs confidence rest (id + 1) out
      else if h : id < out.length then
        applyCrcs confidence rest (id + 1) (out.set id (bumpEntry (out.get ⟨id, h⟩) crc confidence))
      else none

/-- The per-line loop of `Toc::ctdb_parse_checksums`. -/
def ctdbLoop (audio_len : Nat) : List (List Nat) → List (List (Nat × Nat)) →
    Option (Except TocError (List (List (Nat × Nat))))
  | [], out => some (.ok out)
  | line :: rest, out =>
    match parse_entry (trimAscii line) with
    | none => ctdbLoop audio_len rest out
    | some attrs =>
      match parseU16 attrs.1 with
      | none => some (.error .Checksums)
      | some confidence =>
        match applyCrcs confidence (splitWs attrs.2) 0 out with
        | none => none
        | some (.error e) => some (.error e)
        | some (.ok st) =>
          if st.1 ≠ audio_len then some (.error .Checksums)
          else ctdbLoop audio_len rest st.2

/-- `Toc::ctdb_parse_checksums`; `none` models a panic, `some` a returned
`Result`. -/
def Toc.ctdb_parse_checksums (t : Toc) (xml : List Nat) :
    Option (Except TocError (List (List (Nat × Nat)))) :=
  let audio_len := t.audio.length
  match ctdbLoop audio_len (rustLines xml) (List.replicate audio_len []) with
  | none => none
  | some (.error e) => some (.error e)
  | some (.ok out) =>
    if out.any (fun v => ¬ v.isEmpty) then some (.ok out)
    else some (.error .NoChecksums)

end Cdtoc

namespace Cdtoc

/-! ## Small digit and 6-bit-group lemmas -/

theorem hexVal_lower : ∀ d < 16, hexVal (hexLowerDigit d) = some d := by decide

theorem hexVal_upper_lower : ∀ d < 16, hexVal (toUpperByte (hexLowerDigit d)) = some d := by
  decide

theorem b64enc_dec : ∀ s < 64, base64Decode (base64Encode s) = .ok s := by decide

theorem and63_self : ∀ v < 64, v &&& 63 = v := by decide

theorem m1 : ∀ u < 4, ∀ v < 16, ((u <<< 4 ||| v) &&& 15) = v := by decide
theorem m2 : ∀ u < 4, ∀ v < 16, ((u <<< 4 ||| v) >>> 4) = u := by decide
theorem m3 : ∀ u < 16, ∀ w < 4, ((u <<< 2 ||| w) >>> 2) = u := by decide
theorem m4 : ∀ u < 16, ∀ w < 4, ((u <<< 2 ||| w) &&& 3) = w := by decide
theorem m5 : ∀ u < 4, ∀ v < 16, (u <<< 4 ||| v) < 64 := by decide
theorem m6 : ∀ u < 16, ∀ w < 4, (u <<< 2 ||| w) < 64 := by decide
theorem r1 : ∀ x < 256, (x >>> 2) <<< 2 ||| (x &&& 3) = x := by decide
theorem r2 : ∀ x < 256, (x >>> 4) <<< 4 ||| (x &&& 15) = x := by decide
theorem r3 : ∀ x < 256, (x >>> 6) <<< 6 ||| (x &&& 63) = x := by decide
theorem shl2_shr2 : ∀ u < 16, ((u <<< 2) >>> 2) = u := by decide

theorem and3_lt (x : Nat) : x &&& 3 < 4 := Nat.lt_succ_of_le (Nat.and_le_right)
theorem and15_lt (x : Nat) : x &&& 15 < 16 := Nat.lt_succ_of_le (Nat.and_le_right)
theorem and63_lt (x : Nat) : x &&& 63 < 64 := Nat.lt_succ_of_le (Nat.and_le_right)
theorem shr2_lt : ∀ x < 256, x >>> 2 < 64 := by decide
theorem shr4_lt : ∀ x < 256, x >>> 4 < 16 := by decide
theorem shr6_lt : ∀ x < 256, x >>> 6 < 4 := by decide

end Cdtoc

namespace Cdtoc

/-! ## The ShaB64 display/decode round trip -/

theorem exceptOkBind {e a b : Type} (x : a) (f : a → Except e b) :
    (Except.ok x : Except e a) >>= f = f x := rfl

theorem shl2_lt : ∀ u < 16, (u <<< 2) < 64 := by decide

theorem decodeEncodeGroup (x y z : Nat) (hx : x < 256) (hy : y < 256) (hz : z < 256) :
    decGroup4 (base64Encode (x >>> 2), base64Encode ((x &&& 3) <<< 4 ||| y >>> 4),
      base64Encode ((y &&& 15) <<< 2 ||| z >>> 6), base64Encode (z &&& 63)) = .ok [x, y, z] := by
  have e1 := b64enc_dec _ (shr2_lt x hx)
  have e2 := b64enc_dec _ (m5 _ (and3_lt x) _ (shr4_lt y hy))
  have e3 := b64enc_dec _ (m6 _ (and15_lt y) _ (shr6_lt z hz))
  have e4 := b64enc_dec _ (and63_lt z)
  simp only [decGroup4, e1, e2, e3, e4, exceptOkBind]
  rw [and63_self _ (shr2_lt x hx), m2 _ (and3_lt x) _ (shr4_lt y hy), r1 x hx,
    m1 _ (and3_lt x) _ (shr4_lt y hy), m3 _ (and15_lt y) _ (shr6_lt z hz), r2 y hy,
    m4 _ (and15_lt y) _ (shr6_lt z hz), and63_self _ (and63_lt z), r3 z hz]

/-- Decoding the 28-character rendering of any 20-byte digest restores the
digest exactly. -/
theorem shab64_roundtrip : ∀ (l : List Nat), l.length = 20 → (∀ b ∈ l, b < 256) →
    ShaB64.decode (ShaB64.displayBytes l) = .ok l := by
  intro l hlen hb
  rcases l with _ | ⟨b0, l⟩
  · simp at hlen
  rcases l with _ | ⟨b1, l⟩
  · simp at hlen
  rcases l with _ | ⟨b2, l⟩
  · simp at hlen
  rcases l with _ | ⟨b3, l⟩
  · simp at hlen
  rcases l with _ | ⟨b4, l⟩
  · simp at hlen
  rcases l with _ | ⟨b5, l⟩
  · simp at hlen
  rcases l with _ | ⟨b6, l⟩
  · simp at hlen
  rcases l with _ | ⟨b7, l⟩
  · simp at hlen
  rcases l with _ | ⟨b8, l⟩
  · simp at hlen
  rcases l with _ | ⟨b9, l⟩
  · simp at hlen
  rcases l with _ | ⟨b10, l⟩
  · simp at hlen
  rcases l with _ | ⟨b11, l⟩
  · simp at hlen
  rcases l with _ | ⟨b12, l⟩
  · simp at hlen
  rcases l with _ | ⟨b13, l⟩
  · simp at hlen
  rcases l with _ | ⟨b14, l⟩
  · simp at hlen
  rcases l with _ | ⟨b15, l⟩
  · simp at hlen
  rcases l with _ | ⟨b16, l⟩
  · simp at hlen
  rcases l with _ | ⟨b17, l⟩
  · simp at hlen
  rcases l with _ | ⟨b18, l⟩
  · simp at hlen
  rcases l with _ | ⟨b19, l⟩
  · simp at hlen
  have hnil : l = [] := by
    simp only [List.length_cons] at hlen
    exact List.eq_nil_of_length_eq_zero (by omega)
  subst hnil
  have h0 : b0 < 256 := hb b0 (by simp)
  have h1 : b1 < 256 := hb b1 (by simp)
  have h2 : b2 < 256 := hb b2 (by simp)
  have h3 : b3 < 256 := hb b3 (by simp)
  have h4 : b4 < 256 := hb b4 (by simp)
  have h5 : b5 < 256 := hb b5 (by simp)
  have h6 : b6 < 256 := hb b6 (by simp)
  have h7 : b7 < 256 := hb b7 (by simp)
  have h8 : b8 < 256 := hb b8 (by simp)
  have h9 : b9 < 256 := hb b9 (by simp)
  have h10 : b10 < 256 := hb b10 (by simp)
  have h11 : b11 < 256 := hb b11 (by simp)
  have h12 : b12 < 256 := hb b12 (by simp)
  have h13 : b13 < 256 := hb b13 (by simp)
  have h14 : b14 < 256 := hb b14 (by simp)
  have h15 : b15 < 256 := hb b15 (by simp)
  have h16 : b16 < 256 := hb b16 (by simp)
  have h17 : b17 < 256 := hb b17 (by simp)
  have h18 : b18 < 256 := hb b18 (by simp)
  have h19 : b19 < 256 := hb b19 (by simp)
  have e25 := b64enc_dec _ (shr2_lt b18 h18)
  have e26 := b64enc_dec _ (m5 _ (and3_lt b18) _ (shr4_lt b19 h19))
  have e27 := b64enc_dec _ (shl2_lt _ (and15_lt b19))
  simp only [ShaB64.displayBytes, chunks3, List.flatMap_cons, List.flatMap_nil,
    List.append_nil, List.cons_append, List.nil_append, List.getD_cons_zero,
    List.getD_cons_succ]
  rw [ShaB64.decode]
  rw [if_pos (by simp)]
  simp only [List.take, chunks4, List.mapM_cons, List.mapM_nil,
    decodeEncodeGroup b0 b1 b2 h0 h1 h2, decodeEncodeGroup b3 b4 b5 h3 h4 h5,
    decodeEncodeGroup b6 b7 b8 h6 h7 h8, decodeEncodeGroup b9 b10 b11 h9 h10 h11,
    decodeEncodeGroup b12 b13 b14 h12 h13 h14, decodeEncodeGroup b15 b16 b17 h15 h16 h17,
    exceptOkBind, pure_bind, List.getD_cons_zero, List.getD_cons_succ,
    e25, e26, e27, List.flatten]
  rw [and63_self _ (shr2_lt b18 h18), m2 _ (and3_lt b18) _ (shr4_lt b19 h19), r1 b18 h18,
    m1 _ (and3_lt b18) _ (shr4_lt b19 h19), shl2_shr2 _ (and15_lt b19), r2 b19 h19]
  simp

end Cdtoc


namespace Cdtoc

theorem sha1_eq (m : List Nat) : sha1 m =
    beBytes4 (sha1Blocks ((sha1Pad m).length / 64)
        (1732584193, 4023233417, 2562383102, 271733878, 3285377520) (sha1Pad m)).1 ++
      beBytes4 (sha1Blocks ((sha1Pad m).length / 64)
        (1732584193, 4023233417, 2562383102, 271733878, 3285377520) (sha1Pad m)).2.1 ++
      beBytes4 (sha1Blocks ((sha1Pad m).length / 64)
        (1732584193, 4023233417, 2562383102, 271733878, 3285377520) (sha1Pad m)).2.2.1 ++
      beBytes4 (sha1Blocks ((sha1Pad m).length / 64)
        (1732584193, 4023233417, 2562383102, 271733878, 3285377520) (sha1Pad m)).2.2.2.1 ++
      beBytes4 (sha1Blocks ((sha1Pad m).length / 64)
        (1732584193, 4023233417, 2562383102, 271733878, 3285377520) (sha1Pad m)).2.2.2.2 := rfl

theorem sha1_length (m : List Nat) : (sha1 m).length = 20 := by
  rw [sha1_eq]; simp [beBytes4]

theorem sha1_lt (m : List Nat) : ∀ b ∈ sha1 m, b < 256 := by
  rw [sha1_eq]; intro b hb; simp [beBytes4] at hb; omega

theorem parseHexAcc_append (a : List Nat) : ∀ (b : List Nat) (acc : Nat),
    parseHexAcc acc (a ++ b) = (parseHexAcc acc a).bind (fun acc2 => parseHexAcc acc2 b) := by
  induction a with
  | nil => intro b acc; simp [parseHexAcc]
  | cons x r ih =>
    intro b acc
    simp only [List.cons_append, parseHexAcc]
    cases hexVal x with
    | none => simp
    | some d => simp [ih]

theorem parseHexAcc_hexByte (acc b : Nat) (hb : b < 256) :
    parseHexAcc acc (hexByteLower b) = some (acc * 256 + b) := by
  simp only [hexByteLower, parseHexAcc]
  rw [hexVal_lower _ (by omega), hexVal_lower _ (by omega)]
  simp only [parseHexAcc]
  congr 1
  omega

theorem parseHexAcc_hex8 (acc v : Nat) (hv : v < M32) :
    parseHexAcc acc (hex8 v) = some (acc * M32 + v) := by
  simp only [hex8, beBytes4, List.flatMap_cons, List.flatMap_nil, List.append_nil]
  rw [parseHexAcc_append, parseHexAcc_hexByte _ _ (by omega)]
  simp only [Option.some_bind]
  rw [parseHexAcc_append, parseHexAcc_hexByte _ _ (by omega)]
  simp only [Option.some_bind]
  rw [parseHexAcc_append, parseHexAcc_hexByte _ _ (by omega)]
  simp only [Option.some_bind]
  rw [parseHexAcc_hexByte _ _ (by omega)]
  congr 1
  unfold M32 at *
  omega

theorem htou32_hex8 (v : Nat) (hv : v < M32) : htou32 (hex8 v) = some v := by
  have hlen : (hex8 v).length = 8 := by simp [hex8, beBytes4, hexByteLower]
  rw [htou32, if_neg (by omega)]
  rw [parseHexAcc_hex8 0 v hv]
  simp

theorem btou8_digits (n : Nat) (hn : n < 256) :
    btou8 [48 + n / 100, 48 + n / 10 % 10, 48 + n % 10] = some n := by
  rw [btou8, if_neg (by simp)]
  simp only [parseDecAcc, decVal]
  rw [if_pos (by omega), if_pos (by omega), if_pos (by omega)]
  simp only [parseDecAcc]
  rw [if_pos (by omega)]
  congr 1
  omega

theorem htou32_byteDigits (w x y z : Nat) (hw : w < 256) (hx : x < 256) (hy : y < 256)
    (hz : z < 256) :
    htou32 [hexLowerDigit (w / 16), hexLowerDigit (w % 16), hexLowerDigit (x / 16),
      hexLowerDigit (x % 16), hexLowerDigit (y / 16), hexLowerDigit (y % 16),
      hexLowerDigit (z / 16), hexLowerDigit (z % 16)] =
      some (w * 16777216 + x * 65536 + y * 256 + z) := by
  rw [htou32, if_neg (by simp)]
  simp only [parseHexAcc]
  rw [hexVal_lower _ (by omega), hexVal_lower _ (by omega), hexVal_lower _ (by omega),
    hexVal_lower _ (by omega), hexVal_lower _ (by omega), hexVal_lower _ (by omega),
    hexVal_lower _ (by omega), hexVal_lower _ (by omega)]
  simp only [parseHexAcc]
  congr 1
  omega

theorem ar_roundtrip (n bb cc dd : Nat) (hn : n < 256) :
    AccurateRip.decode (AccurateRip.encode ([n] ++ leBytes4 bb ++ leBytes4 cc ++ leBytes4 dd)) =
      .ok ([n] ++ leBytes4 bb ++ leBytes4 cc ++ leBytes4 dd) := by
  simp only [AccurateRip.encode, leBytes4, dec3, hexByteLower, List.cons_append,
    List.nil_append, List.getD_cons_zero, List.getD_cons_succ]
  rw [AccurateRip.decode]
  split
  case isFalse h =>
    exact absurd ⟨by simp, by simp [List.getD_cons_succ, List.getD_cons_zero],
      by simp [List.getD_cons_succ, List.getD_cons_zero],
      by simp [List.getD_cons_succ, List.getD_cons_zero]⟩ h
  case isTrue _ =>
    simp only [List.take_succ_cons, List.take_zero, List.drop_succ_cons, List.drop_zero]
    rw [btou8_digits n hn,
      htou32_byteDigits _ _ _ _ (by omega) (by omega) (by omega) (by omega),
      htou32_byteDigits _ _ _ _ (by omega) (by omega) (by omega) (by omega),
      htou32_byteDigits _ _ _ _ (by omega) (by omega) (by omega) (by omega)]
    simp only [leBytes4, List.cons_append, List.nil_append, Except.ok.injEq, List.cons.injEq,
      and_true]
    refine ⟨trivial, ?_, ?_, ?_, ?_, ?_, ?_, ?_, ?_, ?_, ?_, ?_, ?_⟩ <;> omega

end Cdtoc

namespace Cdtoc

/-- The known-vector disc: CDTOC "4+96+2D2B+6256+B327+D84A". -/
def toc4 : Toc := ⟨.Audio, [150, 11563, 25174, 45863], 0, 55370⟩

theorem cddb_id_lt (t : Toc) : t.cddb_id < M32 := by
  simp only [Toc.cddb_id]
  unfold M32
  omega

/-- C2: the display-then-decode round trip holds for the AccurateRip, CDDB
and ShaB64 (MusicBrainz and CTDB) identifiers derived from any validated TOC. -/
theorem c2_id_display_decode_roundtrip (t : Toc) (_hv : t.Valid) :
    AccurateRip.decode (AccurateRip.encode (AccurateRip.fromToc t)) =
      .ok (AccurateRip.fromToc t) ∧
    Cddb.decode (Cddb.displayBytes t.cddb_id) = .ok t.cddb_id ∧
    ShaB64.decode (ShaB64.displayBytes t.musicbrainz_id) = .ok t.musicbrainz_id ∧
    ShaB64.decode (ShaB64.displayBytes t.ctdb_id) = .ok t.ctdb_id := by
  refine ⟨?_, ?_, ?_, ?_⟩
  · simp only [AccurateRip.fromToc]
    exact ar_roundtrip _ _ _ _ (Nat.mod_lt _ (by omega))
  · rw [Cddb.displayBytes, Cddb.decode, htou32_hex8 _ (cddb_id_lt t)]
  · exact shab64_roundtrip _ (sha1_length _) (sha1_lt _)
  · exact shab64_roundtrip _ (sha1_length _) (sha1_lt _)

/-- Witness for C2 at the known-vector disc. -/
theorem c2_id_display_decode_roundtrip_witness :
    toc4.Valid ∧
    (AccurateRip.decode (AccurateRip.encode (AccurateRip.fromToc toc4)) =
        .ok (AccurateRip.fromToc toc4) ∧
      Cddb.decode (Cddb.displayBytes toc4.cddb_id) = .ok toc4.cddb_id ∧
      ShaB64.decode (ShaB64.displayBytes toc4.musicbrainz_id) = .ok toc4.musicbrainz_id ∧
      ShaB64.decode (ShaB64.displayBytes toc4.ctdb_id) = .ok toc4.ctdb_id) :=
  ⟨by decide, c2_id_display_decode_roundtrip toc4 (by decide)⟩

/-- C3: the four known identifier vectors for TOC "4+96+2D2B+6256+B327+D84A":
AccurateRip "004-0002189a-00087f33-1f02e004", CDDB "1f02e004", MusicBrainz
"nljDXdC8B_pDwbdY1vZJvdrAZI4-" and CTDB "VukMWWItblELRM.CEFpXxw0FlME-". -/
theorem c3_known_vectors :
    Toc.from_cdtoc (asciiBytes "4+96+2D2B+6256+B327+D84A") = .ok toc4 ∧
    AccurateRip.encode (AccurateRip.fromToc toc4) =
      asciiBytes "004-0002189a-00087f33-1f02e004" ∧
    Cddb.displayBytes toc4.cddb_id = asciiBytes "1f02e004" ∧
    ShaB64.displayBytes toc4.musicbrainz_id = asciiBytes "nljDXdC8B_pDwbdY1vZJvdrAZI4-" ∧
    ShaB64.displayBytes toc4.ctdb_id = asciiBytes "VukMWWItblELRM.CEFpXxw0FlME-" := by
  decide

/-- C5: `ctdb_parse_checksums` panics (out-of-range vector index, modelled as
`none`) on an entry whose trackcrcs attribute holds five nonzero checksums for
a four-track disc, instead of returning the mismatch error; an entry with too
few checksums does produce the error the claim describes. -/
theorem c5_ctdb_parse_checksums_panics :
    toc4.ctdb_parse_checksums
      (asciiBytes "<entry confidence=\"1\" trackcrcs=\"1 2 3 4 5\">") = none ∧
    toc4.ctdb_parse_checksums
      (asciiBytes "<entry confidence=\"1\" trackcrcs=\"1 2 3\">") =
      some (.error .Checksums) := by
  decide

end Cdtoc

namespace Cdtoc

theorem parseHexAcc_isSome : ∀ (l : List Nat) (acc : Nat),
    (parseHexAcc acc l).isSome ↔ ∀ b ∈ l, (hexVal b).isSome := by
  intro l
  induction l with
  | nil => intro acc; simp [parseHexAcc]
  | cons x r ih =>
    intro acc
    simp only [parseHexAcc, List.mem_cons]
    cases hx : hexVal x with
    | none =>
      simp only [Option.isSome_none, Bool.false_eq_true, false_iff]
      intro hall
      have := hall x (Or.inl rfl)
      rw [hx] at this
      simp at this
    | some d =>
      rw [ih]
      constructor
      · intro hall b hb
        rcases hb with rfl | hb
        · rw [hx]; rfl
        · exact hall b hb
      · intro hall b hb
        exact hall b (Or.inr hb)

theorem htou32_isSome (s : List Nat) :
    (htou32 s).isSome ↔ (1 ≤ s.length ∧ s.length ≤ 8 ∧ ∀ b ∈ s, (hexVal b).isSome) := by
  unfold htou32
  split
  next h =>
    simp only [Option.isSome_none, Bool.false_eq_true, false_iff]
    rintro ⟨h1, h2, _⟩
    omega
  next h =>
    rw [parseHexAcc_isSome]
    constructor
    · intro hs
      exact ⟨by omega, by omega, hs⟩
    · rintro ⟨_, _, h3⟩
      exact h3

/-- C8 counterexample: a single hex character decodes successfully, so decode
does not require exactly 8 hex digits. -/
theorem c8_counterexample_short_input_decodes :
    Cddb.decode (asciiBytes "1") = .ok 1 ∧ (asciiBytes "1").length ≠ 8 := by decide

/-- C8 amended: `Cddb::decode` succeeds exactly on strings of 1 to 8 hex
characters (the behaviour of the §4.1 hex primitive); longer, empty, or
non-hex input is a decode error. -/
theorem c8_cddb_decode_accepts_one_to_eight_hex (s : List Nat) :
    (∃ v, Cddb.decode s = .ok v) ↔
      (1 ≤ s.length ∧ s.length ≤ 8 ∧ ∀ b ∈ s, (hexVal b).isSome) := by
  rw [← htou32_isSome]
  unfold Cddb.decode
  cases h : htou32 s with
  | none => simp [h]
  | some v => simp [h]

end Cdtoc

namespace Cdtoc

/-- C6 counterexample: in "1+96+AAA+X5000" the final group has an X prefix
with value 0x5000 = 20480, larger than the other trailing group 0xAAA = 2730;
the parse yields a CD-Extra disc with data sector 2730, not a DataFirst disc
with data sector 20480. -/
theorem c6_counterexample_x_prefix_ignored :
    Toc.from_cdtoc (asciiBytes "1+96+AAA+X5000") =
      .ok ⟨.CDExtra, [150], 2730, 20480⟩ ∧
    (⟨.CDExtra, [150], 2730, 20480⟩ : Toc).kind ≠ .DataFirst := by decide

/-- C6 amended: the parser classifies the two trailing groups purely by
magnitude — the smaller value always becomes the data sector and the larger
the leadout, regardless of any x/X prefix (the prefix only lets the group
parse at all) — and the result is DataFirst exactly when the data value is
also smaller than the first audio sector. -/
theorem c6_trailing_groups_classified_by_magnitude :
    (∀ (src : List Nat) (sectors : List Nat) (d l : Nat),
      parse_cdtoc_metadata src = .ok (sectors, some d, l) → d ≤ l) ∧
    (∀ (audio : List Nat) (d leadout : Nat) (t : Toc),
      Toc.from_parts audio (some d) leadout = .ok t →
        (t.kind = .DataFirst ↔ d < audio.headD 0)) := by
  constructor
  · intro src sectors d l h
    unfold parse_cdtoc_metadata at h
    simp only [] at h
    split at h
    · exact absurd h (by simp)
    split at h
    · exact absurd h (by simp)
    split at h
    · exact absurd h (by simp)
    split at h
    · exact absurd h (by simp)
    split at h
    · exact absurd h (by simp)
    split at h
    · exact absurd h (by simp)
    split at h
    · exact absurd h (by simp)
    split at h
    · simp at h
    split at h
    · exact absurd h (by simp)
    split at h
    case isTrue =>
      split at h
      case isTrue hlt =>
        injection h with h2
        injection h2 with ha hb
        injection hb with hb1 hb2
        injection hb1 with hd
        omega
      case isFalse hge =>
        injection h with h2
        injection h2 with ha hb
        injection hb with hb1 hb2
        injection hb1 with hd
        omega
    case isFalse => exact absurd h (by simp)
  · intro audio d leadout t h
    unfold Toc.from_parts at h
    simp only [] at h
    split at h
    · exact absurd h (by simp)
    split at h
    · exact absurd h (by simp)
    split at h
    · exact absurd h (by simp)
    split at h
    · exact absurd h (by simp)
    split at h
    case isTrue hlt =>
      injection h with h2
      subst h2
      simpa using hlt
    case isFalse hge =>
      split at h
      case isTrue hcond =>
        injection h with h2
        subst h2
        simpa using hge
      case isFalse => exact absurd h (by simp)

/-- Witness for C6 at the counterexample input and its parsed parts. -/
theorem c6_trailing_groups_witness :
    parse_cdtoc_metadata (asciiBytes "1+96+AAA+X5000") = .ok ([150], some 2730, 20480) ∧
    (2730 : Nat) ≤ 20480 ∧
    Toc.from_parts [150] (some 2730) 20480 = .ok ⟨.CDExtra, [150], 2730, 20480⟩ ∧
    ((⟨.CDExtra, [150], 2730, 20480⟩ : Toc).kind = .DataFirst ↔ (2730 : Nat) < 150) :=
  ⟨by decide,
   c6_trailing_groups_classified_by_magnitude.1 (asciiBytes "1+96+AAA+X5000") [150]
     2730 20480 (by decide),
   by decide,
   c6_trailing_groups_classified_by_magnitude.2 [150] 2730 20480 _ (by decide)⟩

end Cdtoc

namespace Cdtoc

theorem pairwise_headD_le (l : List Nat) (hp : l.Pairwise (· < ·)) :
    ∀ x ∈ l, l.headD 0 ≤ x := by
  intro x hx
  cases l with
  | nil => simp at hx
  | cons a r =>
    simp only [List.headD_cons]
    rcases List.mem_cons.mp hx with rfl | hx2
    · exact Nat.le_refl x
    · exact Nat.le_of_lt ((List.pairwise_cons.mp hp).1 x hx2)

theorem pairwise_le_getLastD (l : List Nat) (hp : l.Pairwise (· < ·)) :
    ∀ x ∈ l, x ≤ l.getLastD 0 := by
  intro x hx
  have hne : l ≠ [] := by rintro rfl; simp at hx
  rw [List.getLastD_eq_getLast?, List.getLast?_eq_getLast l hne, Option.getD_some]
  conv at hx => rw [← List.dropLast_append_getLast hne]
  conv at hp => rw [← List.dropLast_append_getLast hne]
  rcases List.mem_append.mp hx with hx1 | hx2
  · exact Nat.le_of_lt ((List.pairwise_append.mp hp).2.2 x hx1 (l.getLast hne) (by simp))
  · simp only [List.mem_singleton] at hx2
    exact Nat.le_of_eq hx2

theorem headD_le_getLastD (l : List Nat) (hp : l.Pairwise (· < ·)) (hne : l ≠ []) :
    l.headD 0 ≤ l.getLastD 0 := by
  apply pairwise_le_getLastD l hp
  cases l with
  | nil => exact absurd rfl hne
  | cons a r => simp

theorem getD_pred_eq_getLastD (l : List Nat) :
    l.getD (l.length - 1) 0 = l.getLastD 0 := by
  rw [List.getD_eq_getElem?_getD, List.getLastD_eq_getLast?, List.getLast?_eq_getElem?]

theorem sub32_exact (a b : Nat) (hle : b ≤ a) (ha : a < M32) : sub32 a b = a - b := by
  unfold sub32 M32 at *
  omega

/-- The CD-Extra disc with audio [150, 200], data 300, leadout 400: valid,
yet its audio leadout saturates to 0, below the last audio sector, and the
duration wraps around 2^32. -/
def tocGapless : Toc := ⟨.CDExtra, [150, 200], 300, 400⟩

/-- C10 counterexample: a validated CD-Extra TOC whose audio leadout is
smaller than the last audio track's start, so the duration subtraction
underflows (wrapping to 2^32 - 150). -/
theorem c10_counterexample_cdextra_underflow :
    tocGapless.Valid ∧
    tocGapless.audio_leadout < tocGapless.audio.getLastD 0 ∧
    tocGapless.duration = 4294967146 := by decide

/-- C10 amended: the claimed ordering `audio_leadout ≥ last audio start ≥
audio_leadin` (and underflow-free duration and final-track sector count)
holds for Audio and DataFirst discs always, and for CD-Extra discs exactly
when the data session starts at least 11400 sectors past the last audio
track, which validation does not enforce. -/
theorem c10_audio_leadout_bounds (t : Toc) (hv : t.Valid)
    (hgap : t.kind = .CDExtra → t.audio.getLastD 0 + 11400 ≤ t.data) :
    t.audio.getLastD 0 ≤ t.audio_leadout ∧
    t.audio_leadin ≤ t.audio_leadout ∧
    t.duration = t.audio_leadout - t.audio_leadin ∧
    ∀ tr, t.audio_track t.audio.length = some tr →
      tr.sectorFrom ≤ tr.sectorTo ∧ tr.sectors = tr.sectorTo - tr.sectorFrom := by
  obtain ⟨hlen1, hlen99, hpw, hhead, hlast, hmem, hdata, hleadout, hkind⟩ := hv
  have hne : t.audio ≠ [] := by
    intro hnil
    rw [hnil] at hlen1
    simp at hlen1
  have hlast_le : t.audio.getLastD 0 ≤ t.audio_leadout := by
    unfold Toc.audio_leadout
    split
    next hce => have := hgap hce; omega
    next => omega
  have hleadin_eq : t.audio_leadin = t.audio.headD 0 := by
    unfold Toc.audio_leadin
    cases ha : t.audio with
    | nil => exact absurd ha hne
    | cons a r => simp
  have hleadin_last : t.audio_leadin ≤ t.audio.getLastD 0 := by
    rw [hleadin_eq]
    exact headD_le_getLastD t.audio hpw hne
  have hlead_le : t.audio_leadin ≤ t.audio_leadout := Nat.le_trans hleadin_last hlast_le
  have hao_lt : t.audio_leadout < M32 := by
    unfold Toc.audio_leadout
    split
    next => omega
    next => exact hleadout
  refine ⟨hlast_le, hlead_le, ?_, ?_⟩
  · exact sub32_exact _ _ hlead_le hao_lt
  · intro tr htr
    unfold Toc.audio_track at htr
    rw [if_neg (by omega)] at htr
    injection htr with htr
    subst htr
    simp only [Nat.lt_irrefl, if_false]
    rw [getD_pred_eq_getLastD t.audio]
    refine ⟨hlast_le, ?_⟩
    exact sub32_exact _ _ hlast_le hao_lt

/-- Witness for C10 at the known-vector audio-only disc. -/
theorem c10_audio_leadout_bounds_witness :
    toc4.Valid ∧
    (toc4.audio.getLastD 0 ≤ toc4.audio_leadout ∧
      toc4.audio_leadin ≤ toc4.audio_leadout ∧
      toc4.duration = toc4.audio_leadout - toc4.audio_leadin ∧
      ∀ tr, toc4.audio_track toc4.audio.length = some tr →
        tr.sectorFrom ≤ tr.sectorTo ∧ tr.sectors = tr.sectorTo - tr.sectorFrom) :=
  ⟨by decide, c10_audio_leadout_bounds toc4 (by decide) (by decide)⟩

end Cdtoc

namespace Cdtoc

/-- Uppercase hex digit for a nibble. -/
def hexUpperDigit (n : Nat) : Nat := if n < 10 then 48 + n else 55 + n

/-- Big-endian uppercase hex rendering with exactly `f` nibbles. -/
def hexNfU : Nat → Nat → List Nat
  | 0, _ => []
  | f + 1, v => hexNfU f (v / 16) ++ [hexUpperDigit (v % 16)]

theorem upper_digit : ∀ d < 16, toUpperByte (hexLowerDigit d) = hexUpperDigit d := by decide

theorem upperAll_append (a b : List Nat) : upperAll (a ++ b) = upperAll a ++ upperAll b :=
  List.map_append toUpperByte a b

theorem upperAll_hexByte (b : Nat) (hb : b < 256) : upperAll (hexByteLower b) = hexNfU 2 b := by
  simp only [upperAll, hexByteLower, List.map_cons, List.map_nil, hexNfU, List.nil_append,
    List.cons_append, List.append_nil]
  rw [upper_digit _ (by omega), upper_digit _ (by omega)]
  have h1 : b / 16 / 16 = 0 := by omega
  have h2 : b / 16 % 16 = b / 16 := by omega
  rw [h2]

theorem hexNfU_add2 (f v : Nat) : hexNfU (f + 2) v = hexNfU f (v / 256) ++ hexNfU 2 (v % 256) := by
  show hexNfU (f + 1 + 1) v = _
  simp only [hexNfU, List.append_assoc]
  have h1 : v / 16 / 16 = v / 256 := by omega
  have h3 : v % 256 / 16 % 16 = v / 16 % 16 := by omega
  have h4 : v % 256 % 16 = v % 16 := by omega
  rw [h1, h3, h4]
  simp

theorem upperAll_hex8 (v : Nat) (hv : v < M32) : upperAll (hex8 v) = hexNfU 8 v := by
  have hM : M32 = 4294967296 := rfl
  simp only [hex8, beBytes4, List.flatMap_cons, List.flatMap_nil, List.append_nil]
  rw [upperAll_append, upperAll_append, upperAll_append,
    upperAll_hexByte _ (by omega), upperAll_hexByte _ (by omega),
    upperAll_hexByte _ (by omega), upperAll_hexByte _ (by omega)]
  rw [show hexNfU 8 v = hexNfU (6 + 2) v from rfl, hexNfU_add2 6 v,
    show hexNfU 6 (v / 256) = hexNfU (4 + 2) (v / 256) from rfl, hexNfU_add2 4 (v / 256),
    show hexNfU 4 (v / 256 / 256) = hexNfU (2 + 2) (v / 256 / 256) from rfl,
    hexNfU_add2 2 (v / 256 / 256)]
  have h1 : v / 256 / 256 = v / 65536 := by omega
  have h2 : v / 65536 / 256 = v / 16777216 := by omega
  have h3 : v / 16777216 % 256 = v / 16777216 := by omega
  rw [h1, h2, h3]
  simp [List.append_assoc]

theorem chunks4_rem4_flatMap (f : Nat → List Nat) : ∀ (l : List Nat),
    ((chunks4 l).flatMap (fun g => f g.1 ++ f g.2.1 ++ f g.2.2.1 ++ f g.2.2.2)) ++
      (rem4 l).flatMap f = l.flatMap f
  | a :: b :: c :: d :: r => by
    have ih := chunks4_rem4_flatMap f r
    simp only [List.append_assoc] at ih
    simp only [chunks4, rem4, List.flatMap_cons, List.append_assoc, ih]
  | [] => by simp [chunks4, rem4]
  | [a] => by simp [chunks4, rem4]
  | [a, b] => by simp [chunks4, rem4]
  | [a, b, c] => by simp [chunks4, rem4]

end Cdtoc

namespace Cdtoc

theorem flatMap_congr {α : Type} {f g : α → List Nat} : ∀ (l : List α), (∀ x ∈ l, f x = g x) →
    l.flatMap f = l.flatMap g := by
  intro l
  induction l with
  | nil => intro _; rfl
  | cons a r ih =>
    intro h
    simp only [List.flatMap_cons]
    rw [h a (by simp), ih (fun x hx => h x (by simp [hx]))]

theorem upperAll_flatMap (l : List Nat) (f : Nat → List Nat) :
    upperAll (l.flatMap f) = l.flatMap (fun v => upperAll (f v)) := by
  induction l with
  | nil => rfl
  | cons a r ih => simp only [List.flatMap_cons, upperAll_append, ih]

/-- Modelled from the claim (§4.8): the MusicBrainz digest input as the spec
words it — the ASCII tag "01", the 2-hex-digit audio track count, the
8-hex-digit big-endian leadout of the audio session (the cited
`Toc::audio_leadout`), the 8-hex-digit big-endian encoding of every audio
sector position unmodified, then "00000000" slots padding to 99
track-equivalents. -/
def mbMessageSpec (t : Toc) : List Nat :=
  asciiBytes "01" ++ hexNfU 2 (t.audio.length % 256) ++ hexNfU 8 t.audio_leadout ++
    t.audio.flatMap (fun v => hexNfU 8 v) ++ List.replicate ((99 - t.audio.length) * 8) 48

/-- C7: for every validated Toc, the MusicBrainz ID is the SHA1 digest
(rendered through the ShaB64 codec by `ShaB64.displayBytes`) of exactly the
byte sequence `mbMessageSpec`: tag "01", 2-hex-digit track count, 8-hex-digit
big-endian audio leadout, every audio sector position unmodified, then
"00000000" padding slots up to 99 track-equivalents. -/
theorem c7_musicbrainz_message_layout (t : Toc) (hv : t.Valid) :
    t.musicbrainz_id = sha1 (mbMessageSpec t) := by
  obtain ⟨h1, h99, hpw, hhead, hlast, hmem, hdata, hlead, hkind⟩ := hv
  have hao : t.audio_leadout < M32 := by
    unfold Toc.audio_leadout
    split
    · omega
    · exact hlead
  unfold Toc.musicbrainz_id
  congr 1
  unfold mbMessage mbMessageSpec
  simp only []
  rw [show asciiBytes "01" = [48, 49] from by decide]
  rw [upperAll_hexByte _ (Nat.mod_lt _ (by omega)), upperAll_hex8 _ hao]
  rw [upperAll_flatMap]
  have hbat : ((chunks4 t.audio).flatMap
      (fun g => upperAll (hex8 g.1 ++ hex8 g.2.1 ++ hex8 g.2.2.1 ++ hex8 g.2.2.2))) =
      (chunks4 t.audio).flatMap (fun g => upperAll (hex8 g.1) ++ upperAll (hex8 g.2.1) ++
        upperAll (hex8 g.2.2.1) ++ upperAll (hex8 g.2.2.2)) := by
    apply flatMap_congr
    intro g _
    rw [upperAll_append, upperAll_append, upperAll_append]
  rw [hbat]
  have hmid := chunks4_rem4_flatMap (fun v => upperAll (hex8 v)) t.audio
  simp only [List.append_assoc] at hmid
  have hflat : t.audio.flatMap (fun v => upperAll (hex8 v)) =
      t.audio.flatMap (fun v => hexNfU 8 v) :=
    flatMap_congr _ (fun x hx => upperAll_hex8 x (hmem x hx))
  congr 1
  simp only [List.append_assoc, List.cons_append, List.nil_append]
  rw [hmid, hflat]

/-- Witness for C7 at the known-vector disc. -/
theorem c7_musicbrainz_message_layout_witness :
    toc4.Valid ∧ toc4.musicbrainz_id = sha1 (mbMessageSpec toc4) :=
  ⟨by decide, c7_musicbrainz_message_layout toc4 (by decide)⟩

end Cdtoc

namespace Cdtoc

/-- Big-endian lowercase hex rendering with exactly `f` nibbles. -/
def hexNf : Nat → Nat → List Nat
  | 0, _ => []
  | f + 1, v => hexNf f (v / 16) ++ [hexLowerDigit (v % 16)]

theorem hexNf_add2 (f v : Nat) : hexNf (f + 2) v = hexNf f (v / 256) ++ hexNf 2 (v % 256) := by
  show hexNf (f + 1 + 1) v = _
  simp only [hexNf, List.append_assoc]
  have h1 : v / 16 / 16 = v / 256 := by omega
  have h3 : v % 256 / 16 % 16 = v / 16 % 16 := by omega
  have h4 : v % 256 % 16 = v % 16 := by omega
  rw [h1, h3, h4]
  simp

theorem hexByteLower_eq_hexNf2 (b : Nat) (hb : b < 256) : hexByteLower b = hexNf 2 b := by
  simp only [hexByteLower, hexNf, List.nil_append, List.cons_append, List.append_nil]
  have h2 : b / 16 % 16 = b / 16 := by omega
  rw [h2]

theorem hex8_eq_hexNf (v : Nat) (hv : v < M32) : hex8 v = hexNf 8 v := by
  have hM : M32 = 4294967296 := rfl
  simp only [hex8, beBytes4, List.flatMap_cons, List.flatMap_nil, List.append_nil]
  rw [hexByteLower_eq_hexNf2 _ (by omega), hexByteLower_eq_hexNf2 _ (by omega),
    hexByteLower_eq_hexNf2 _ (by omega), hexByteLower_eq_hexNf2 _ (by omega)]
  rw [show hexNf 8 v = hexNf (6 + 2) v from rfl, hexNf_add2 6 v,
    show hexNf 6 (v / 256) = hexNf (4 + 2) (v / 256) from rfl, hexNf_add2 4 (v / 256),
    show hexNf 4 (v / 256 / 256) = hexNf (2 + 2) (v / 256 / 256) from rfl,
    hexNf_add2 2 (v / 256 / 256)]
  have h1 : v / 256 / 256 = v / 65536 := by omega
  have h2 : v / 65536 / 256 = v / 16777216 := by omega
  have h3 : v / 16777216 % 256 = v / 16777216 := by omega
  rw [h1, h2, h3]
  simp [List.append_assoc]

theorem minhexAux_zero : ∀ f, minhexAux f 0 = [] := by
  intro f
  cases f with
  | zero => rfl
  | succ f2 => simp [minhexAux]

theorem minhexAux_ne_nil : ∀ (f v : Nat), 0 < v → v < 16 ^ f → minhexAux f v ≠ [] := by
  intro f v hv hlt
  cases f with
  | zero => simp at hlt; omega
  | succ f2 =>
    simp only [minhexAux]
    rw [if_neg (by omega)]
    simp

theorem hexLowerDigit_ne_48 : ∀ d < 16, d ≠ 0 → hexLowerDigit d ≠ 48 := by decide

theorem trim_hexNf : ∀ (f v : Nat), v < 16 ^ f → trimStartZeros (hexNf f v) = minhexAux f v := by
  intro f
  induction f with
  | zero => intro v hv; simp [hexNf, minhexAux, trimStartZeros]
  | succ f2 ih =>
    intro v hv
    simp only [hexNf, minhexAux]
    have hdiv : v / 16 < 16 ^ f2 := by
      rw [pow_succ] at hv
      omega
    unfold trimStartZeros
    rw [List.dropWhile_append]
    by_cases hz : v = 0
    · subst hz
      simp only [Nat.zero_div, if_pos rfl]
      have h0 := ih 0 (by positivity)
      rw [minhexAux_zero] at h0
      unfold trimStartZeros at h0
      rw [h0]
      simp [hexLowerDigit]
    · rw [if_neg hz]
      have ihv := ih (v / 16) hdiv
      unfold trimStartZeros at ihv
      rw [ihv]
      by_cases hz2 : v / 16 = 0
      · rw [hz2, minhexAux_zero]
        simp only [List.isEmpty_nil, if_true]
        have hne : hexLowerDigit (v % 16) ≠ 48 :=
          hexLowerDigit_ne_48 (v % 16) (by omega) (by omega)
        have hfalse : (hexLowerDigit (v % 16) == 48) = false := by simpa using hne
        simp [List.dropWhile, hfalse]
      · have hnn := minhexAux_ne_nil f2 (v / 16) (by omega) hdiv
        rw [if_neg (by simpa using hnn)]

theorem trim_hex8 (v : Nat) (hv : v < M32) : trimStartZeros (hex8 v) = minhex v := by
  rw [hex8_eq_hexNf v hv, trim_hexNf 8 v (by simpa [M32] using hv)]
  rfl

end Cdtoc

namespace Cdtoc

/-- Minimal uppercase hex rendering (empty for zero); fuelled like `minhexAux`. -/
def minhexUAux : Nat → Nat → List Nat
  | 0, _ => []
  | f + 1, v => if v = 0 then [] else minhexUAux f (v / 16) ++ [hexUpperDigit (v % 16)]

/-- Minimal uppercase hex rendering of a `u32` (empty for zero). -/
def minhexU (v : Nat) : List Nat := minhexUAux 8 v

theorem upperAll_minhexAux : ∀ (f v : Nat), v < 16 ^ f →
    upperAll (minhexAux f v) = minhexUAux f v := by
  intro f
  induction f with
  | zero => intro v hv; rfl
  | succ f2 ih =>
    intro v hv
    simp only [minhexAux, minhexUAux]
    by_cases hz : v = 0
    · rw [if_pos hz, if_pos hz]; rfl
    · rw [if_neg hz, if_neg hz, upperAll_append, ih (v / 16) (by rw [pow_succ] at hv; omega)]
      simp only [upperAll, List.map_cons, List.map_nil]
      rw [upper_digit _ (by omega)]

theorem upperAll_minhex (v : Nat) (hv : v < M32) : upperAll (minhex v) = minhexU v :=
  upperAll_minhexAux 8 v (by simpa [M32] using hv)

theorem count_part_eq : ∀ n < 100, 1 ≤ n →
    upperAll ((if 16 ≤ n then [hexLowerDigit (n / 16)] else []) ++ [hexLowerDigit (n % 16)]) =
      minhexU n := by decide

/-- The serialized sector groups of a TOC, per §4.2 as the (amended) claim
words them: each audio sector, then the trailing group or groups by kind,
each rendered as minimal uppercase hex, the DataFirst data group carrying a
literal 'X'. -/
def Toc.specGroups (t : Toc) : List (List Nat) :=
  t.audio.map minhexU ++
    (match t.kind with
     | .Audio => [minhexU t.leadout]
     | .CDExtra => [minhexU t.data, minhexU t.leadout]
     | .DataFirst => [minhexU t.leadout, 88 :: minhexU t.data])

/-- The §4.2 serialization as the (amended) claim words it: the track count
in minimal uppercase hex, then every group of `Toc.specGroups` preceded by
a '+' separator. -/
def Toc.specDisplay (t : Toc) : List Nat :=
  minhexU t.audio.length ++ t.specGroups.flatMap (fun g => 43 :: g)

/-- The serialization exactly as the original claim describes it, with the
track count forced to two digits when below 16. -/
def Toc.specDisplayTwoDigit (t : Toc) : List Nat :=
  (if t.audio.length < 16 then 48 :: minhexU t.audio.length else minhexU t.audio.length) ++
    t.specGroups.flatMap (fun g => 43 :: g)

theorem map_toUpper_eq_upperAll (l : List Nat) : List.map toUpperByte l = upperAll l := rfl

theorem flatMap_map_cons (l : List Nat) (f : Nat → List Nat) :
    (l.map f).flatMap (fun g => 43 :: g) = l.flatMap (fun v => 43 :: f v) := by
  induction l with
  | nil => rfl
  | cons a r ih => simp only [List.map_cons, List.flatMap_cons, ih]

theorem upperAll_pushGroup (v : Nat) (hv : v < M32) :
    upperAll (pushGroup v) = 43 :: minhexU v := by
  simp only [pushGroup, upperAll, List.map_cons]
  rw [show toUpperByte 43 = 43 from rfl, trim_hex8 v hv]
  have h2 := upperAll_minhex v hv
  simp only [upperAll] at h2
  rw [h2]

theorem displayBytes_eq_specRender (t : Toc) (hv : t.Valid) :
    t.displayBytes = t.specDisplay := by
  obtain ⟨h1, h99, hpw, hhead, hlast, hmem, hdata, hlead, hkind⟩ := hv
  unfold Toc.displayBytes Toc.specDisplay Toc.specGroups
  simp only []
  rw [map_toUpper_eq_upperAll]
  rw [show t.audio.length % 256 = t.audio.length from by omega]
  rw [upperAll_append, upperAll_append, count_part_eq t.audio.length (by omega) h1]
  rw [upperAll_flatMap]
  have hpg : t.audio.flatMap (fun v => upperAll (pushGroup v)) =
      t.audio.flatMap (fun v => 43 :: minhexU v) :=
    flatMap_congr _ (fun v hvm => upperAll_pushGroup v (hmem v hvm))
  rw [hpg, List.flatMap_append, flatMap_map_cons]
  simp only [List.append_assoc]
  congr 2
  cases hk : t.kind with
  | Audio =>
    simp only [List.flatMap_cons, List.flatMap_nil, List.append_nil]
    exact upperAll_pushGroup t.leadout hlead
  | CDExtra =>
    simp only [List.flatMap_cons, List.flatMap_nil, List.append_nil]
    rw [upperAll_append, upperAll_pushGroup t.data hdata, upperAll_pushGroup t.leadout hlead]
  | DataFirst =>
    rw [upperAll_append, upperAll_append, upperAll_pushGroup t.leadout hlead]
    have h2 := upperAll_minhex t.data hdata
    rw [trim_hex8 t.data hdata, h2]
    simp [upperAll, toUpperByte]

end Cdtoc

namespace Cdtoc

/-- C9 counterexample: the four-track known-vector disc serializes with a
single-digit track count "4", not the claimed forced two-digit "04". -/
theorem c9_counterexample_single_digit_count :
    toc4.displayBytes = asciiBytes "4+96+2D2B+6256+B327+D84A" ∧
    toc4.specDisplayTwoDigit = asciiBytes "04+96+2D2B+6256+B327+D84A" ∧
    toc4.displayBytes ≠ toc4.specDisplayTwoDigit := by decide

/-- C9 amended: serialization renders the track count and every sector as
uppercase hex with leading zeros stripped (one digit for counts below 16 —
there is no forced two-digit minimum), joins the groups with '+', and
prefixes the DataFirst data group with 'X'. -/
theorem c9_serialization_format (t : Toc) (hv : t.Valid) :
    t.displayBytes = t.specDisplay :=
  displayBytes_eq_specRender t hv

/-- Witness for C9 at the known-vector disc. -/
theorem c9_serialization_format_witness :
    toc4.Valid ∧ toc4.displayBytes = toc4.specDisplay :=
  ⟨by decide, c9_serialization_format toc4 (by decide)⟩

end Cdtoc

namespace Cdtoc

theorem hexUpperDigit_range : ∀ d < 16, 48 ≤ hexUpperDigit d ∧ hexUpperDigit d ≤ 70 := by
  decide

theorem minhexUAux_bytes : ∀ (f v : Nat), ∀ b ∈ minhexUAux f v, 48 ≤ b ∧ b ≤ 70 := by
  intro f
  induction f with
  | zero => intro v b hb; simp [minhexUAux] at hb
  | succ f2 ih =>
    intro v b hb
    simp only [minhexUAux] at hb
    by_cases hz : v = 0
    · rw [if_pos hz] at hb; simp at hb
    · rw [if_neg hz] at hb
      rcases List.mem_append.mp hb with hb1 | hb2
      · exact ih (v / 16) b hb1
      · simp only [List.mem_singleton] at hb2
        subst hb2
        exact hexUpperDigit_range _ (by omega)

theorem minhexU_no_plus (v : Nat) : 43 ∉ minhexU v := by
  intro hmem
  have := minhexUAux_bytes 8 v 43 hmem
  omega

theorem dropWhile_eq_self_of (p : Nat → Bool) (l : List Nat) (h : ∀ b ∈ l, p b = false) :
    List.dropWhile p l = l := by
  cases l with
  | nil => rfl
  | cons a r => simp [List.dropWhile, h a (by simp)]

theorem trimAscii_eq_self (l : List Nat) (h : ∀ b ∈ l, isWsByte b = false) :
    trimAscii l = l := by
  unfold trimAscii
  rw [dropWhile_eq_self_of _ _ h,
    dropWhile_eq_self_of _ _ (fun b hb => h b (List.mem_reverse.mp hb)),
    List.reverse_reverse]

theorem splitPlus_no_sep : ∀ (l : List Nat), 43 ∉ l → splitPlus l = [l] := by
  intro l
  induction l with
  | nil => intro _; rfl
  | cons b r ih =>
    intro h
    simp only [splitPlus]
    rw [if_neg (by simp at h; omega)]
    rw [ih (by simp at h; exact fun hc => h.2 hc)]

theorem splitPlus_cons_sep (r : List Nat) : splitPlus (43 :: r) = [] :: splitPlus r := by
  simp [splitPlus]

theorem splitPlus_append_group : ∀ (h : List Nat), 43 ∉ h → ∀ (r : List Nat),
    splitPlus (h ++ 43 :: r) = h :: splitPlus r := by
  intro h
  induction h with
  | nil => intro _ r; simp [splitPlus]
  | cons b h2 ih =>
    intro hnm r
    simp only [List.cons_append, splitPlus, List.append_eq]
    rw [if_neg (by simp at hnm; omega)]
    rw [ih (by simp at hnm; exact fun hc => hnm.2 hc) r]

theorem splitPlus_join : ∀ (gs : List (List Nat)) (h : List Nat), 43 ∉ h →
    (∀ g ∈ gs, 43 ∉ g) →
    splitPlus (h ++ gs.flatMap (fun g => 43 :: g)) = h :: gs := by
  intro gs
  induction gs with
  | nil =>
    intro h hh _
    simp only [List.flatMap_nil, List.append_nil]
    exact splitPlus_no_sep h hh
  | cons g gs2 ih =>
    intro h hh hgs
    simp only [List.flatMap_cons]
    rw [show h ++ (43 :: g ++ gs2.flatMap (fun g => 43 :: g)) =
      h ++ 43 :: (g ++ gs2.flatMap (fun g => 43 :: g)) from by simp]
    rw [splitPlus_append_group h hh]
    rw [ih g (hgs g (by simp)) (fun g2 hg2 => hgs g2 (by simp [hg2]))]

end Cdtoc

namespace Cdtoc

theorem hexVal_upperDigit : ∀ d < 16, hexVal (hexUpperDigit d) = some d := by decide

theorem minhexUAux_length_le : ∀ (f k v : Nat), v < 16 ^ k → (minhexUAux f v).length ≤ k := by
  intro f
  induction f with
  | zero => intro k v _; simp [minhexUAux]
  | succ f2 ih =>
    intro k v hv
    simp only [minhexUAux]
    by_cases hz : v = 0
    · rw [if_pos hz]; simp
    · rw [if_neg hz]
      cases k with
      | zero => simp at hv; omega
      | succ k2 =>
        have hdiv : v / 16 < 16 ^ k2 := by
          rw [pow_succ] at hv
          omega
        have := ih k2 (v / 16) hdiv
        simp only [List.length_append, List.length_cons, List.length_nil]
        omega

theorem minhexUAux_pos_ne_nil : ∀ (f v : Nat), 0 < v → 0 < f → minhexUAux f v ≠ [] := by
  intro f v hv hf
  cases f with
  | zero => omega
  | succ f2 =>
    simp only [minhexUAux]
    rw [if_neg (by omega)]
    simp

theorem parseHexAcc_minhexUAux : ∀ (f v acc : Nat), v < 16 ^ f →
    parseHexAcc acc (minhexUAux f v) = some (acc * 16 ^ (minhexUAux f v).length + v) := by
  intro f
  induction f with
  | zero =>
    intro v acc hv
    simp only [pow_zero] at hv
    interval_cases v
    simp [minhexUAux, parseHexAcc]
  | succ f2 ih =>
    intro v acc hv
    simp only [minhexUAux]
    by_cases hz : v = 0
    · rw [if_pos hz]
      subst hz
      simp [parseHexAcc]
    · rw [if_neg hz]
      have hdiv : v / 16 < 16 ^ f2 := by rw [pow_succ] at hv; omega
      rw [parseHexAcc_append, ih (v / 16) acc hdiv]
      simp only [Option.some_bind, parseHexAcc]
      rw [hexVal_upperDigit _ (by omega)]
      simp only [parseHexAcc, List.length_append, List.length_cons, List.length_nil]
      congr 1
      rw [pow_succ]
      have : v = (v / 16) * 16 + v % 16 := by omega
      ring_nf
      omega

theorem htou32_minhexU (v : Nat) (hpos : 0 < v) (hv : v < M32) :
    htou32 (minhexU v) = some v := by
  unfold htou32 minhexU
  have hlen : (minhexUAux 8 v).length ≤ 8 := minhexUAux_length_le 8 8 v (by simpa [M32] using hv)
  have hne : minhexUAux 8 v ≠ [] := minhexUAux_pos_ne_nil 8 v hpos (by omega)
  rw [if_neg (by
    simp only [not_or]
    constructor
    · simpa using hne
    · omega)]
  rw [parseHexAcc_minhexUAux 8 v 0 (by simpa [M32] using hv)]
  simp

theorem htou8_minhexU (v : Nat) (hpos : 0 < v) (hv : v < 256) :
    htou8 (minhexU v) = some v := by
  unfold htou8 minhexU
  have hlen : (minhexUAux 8 v).length ≤ 2 := minhexUAux_length_le 8 2 v (by simpa using hv)
  have hne : minhexUAux 8 v ≠ [] := minhexUAux_pos_ne_nil 8 v hpos (by omega)
  rw [if_neg (by
    simp only [not_or]
    constructor
    · simpa using hne
    · omega)]
  rw [parseHexAcc_minhexUAux 8 v 0 (by
    have : (256 : Nat) ≤ 16 ^ 8 := by norm_num
    omega)]
  simp

theorem mapM_htou32_minhexU : ∀ (l : List Nat), (∀ v ∈ l, 0 < v ∧ v < M32) →
    (l.map minhexU).mapM htou32 = some l := by
  intro l
  induction l with
  | nil => intro _; rfl
  | cons a r ih =>
    intro h
    simp only [List.map_cons, List.mapM_cons]
    rw [htou32_minhexU a (h a (by simp)).1 (h a (by simp)).2]
    rw [ih (fun v hv => h v (by simp [hv]))]
    rfl

theorem htou32_x_prefixed (l : List Nat) : htou32 (88 :: l) = none := by
  unfold htou32
  split
  · rfl
  · simp [parseHexAcc, hexVal]

theorem pairwise_anyOutOfOrder : ∀ (l : List Nat), l.Pairwise (· < ·) →
    anyOutOfOrder l = false := by
  intro l
  induction l with
  | nil => intro _; rfl
  | cons a r ih =>
    intro hp
    cases r with
    | nil => rfl
    | cons b r2 =>
      simp only [anyOutOfOrder, Bool.or_eq_false_iff]
      constructor
      · have hab : a < b := (List.pairwise_cons.mp hp).1 b (by simp)
        simp
        omega
      · exact ih ((List.pairwise_cons.mp hp).2)

theorem from_parts_of_valid (t : Toc) (hv : t.Valid) :
    Toc.from_parts t.audio t.dataOpt t.leadout = .ok t := by
  obtain ⟨h1, h99, hpw, hhead, hlast, hmem, hdata, hlead, hkind⟩ := hv
  have hne : t.audio ≠ [] := by
    intro hnil; rw [hnil] at h1; simp at h1
  unfold Toc.from_parts Toc.dataOpt
  simp only []
  rw [if_neg (by omega)]
  rw [if_neg (by omega)]
  rw [if_neg (by omega)]
  rw [if_neg (by
    rw [pairwise_anyOutOfOrder t.audio hpw]
    rintro (⟨_, habs⟩ | hle)
    · exact absurd habs (by simp)
    · omega)]
  cases hk : t.kind with
  | Audio =>
    rw [if_pos rfl]
    rw [hk] at hkind
    simp only [kindInvariant] at hkind
    cases t with
    | mk kind audio data leadout =>
      simp only at hk hkind ⊢
      rw [hk, hkind]
  | CDExtra =>
    rw [hk] at hkind
    simp only [kindInvariant] at hkind
    obtain ⟨hk1, hk2⟩ := hkind
    rw [if_neg (by simp)]
    simp only []
    have hheadle : t.audio.headD 0 ≤ t.audio.getLastD 0 := headD_le_getLastD t.audio hpw hne
    rw [if_neg (by omega)]
    rw [if_pos ⟨hk1, hk2⟩]
    cases t with
    | mk kind audio data leadout =>
      simp only at hk ⊢
      rw [hk]
  | DataFirst =>
    rw [hk] at hkind
    simp only [kindInvariant] at hkind
    rw [if_neg (by simp)]
    simp only []
    rw [if_pos hkind]
    cases t with
    | mk kind audio data leadout =>
      simp only at hk ⊢
      rw [hk]

end Cdtoc

namespace Cdtoc

theorem isWsByte_false_of_ge (b : Nat) (h : 43 ≤ b) : isWsByte b = false := by
  simp only [isWsByte, Bool.or_eq_false_iff, beq_eq_false_iff_ne, ne_eq]
  omega

theorem specGroups_bounds (t : Toc) :
    ∀ g ∈ t.specGroups, ∀ b ∈ g, (48 ≤ b ∧ b ≤ 70) ∨ b = 88 := by
  intro g hg b hb
  unfold Toc.specGroups at hg
  rcases List.mem_append.mp hg with hg1 | hg2
  · obtain ⟨v, _, rfl⟩ := List.mem_map.mp hg1
    exact Or.inl (minhexUAux_bytes 8 v b hb)
  · cases hk : t.kind <;> rw [hk] at hg2 <;> simp only [List.mem_singleton,
      List.mem_cons, List.not_mem_nil, or_false] at hg2
    · subst hg2
      exact Or.inl (minhexUAux_bytes 8 t.leadout b hb)
    · rcases hg2 with rfl | rfl
      · exact Or.inl (minhexUAux_bytes 8 t.data b hb)
      · exact Or.inl (minhexUAux_bytes 8 t.leadout b hb)
    · rcases hg2 with rfl | rfl
      · exact Or.inl (minhexUAux_bytes 8 t.leadout b hb)
      · rcases List.mem_cons.mp hb with rfl | hb2
        · exact Or.inr rfl
        · exact Or.inl (minhexUAux_bytes 8 t.data b hb2)

theorem specGroups_no_plus (t : Toc) : ∀ g ∈ t.specGroups, 43 ∉ g := by
  intro g hg hmem
  rcases specGroups_bounds t g hg 43 hmem with ⟨h1, _⟩ | h2 <;> omega

theorem specDisplay_ge (t : Toc) : ∀ b ∈ t.specDisplay, 43 ≤ b := by
  intro b hb
  unfold Toc.specDisplay at hb
  rcases List.mem_append.mp hb with h1 | h2
  · have := minhexUAux_bytes 8 t.audio.length b h1
    omega
  · obtain ⟨g, hg, hbg⟩ := List.mem_flatMap.mp h2
    rcases List.mem_cons.mp hbg with rfl | hb2
    · omega
    · rcases specGroups_bounds t g hg b hb2 with ⟨hge, _⟩ | heq <;> omega

theorem take_len_append {α : Type} (l1 l2 : List α) (n : Nat) (h : l1.length = n) :
    (l1 ++ l2).take n = l1 := by
  subst h
  exact List.take_left l1 l2

theorem drop_len_append {α : Type} (l1 l2 : List α) (n : Nat) (h : l1.length = n) :
    (l1 ++ l2).drop n = l2 := by
  subst h
  exact List.drop_left l1 l2

theorem splitPlus_specDisplay (t : Toc) :
    splitPlus t.specDisplay = minhexU t.audio.length :: t.specGroups := by
  unfold Toc.specDisplay
  exact splitPlus_join t.specGroups (minhexU t.audio.length)
    (minhexU_no_plus _) (specGroups_no_plus t)

theorem parse_specDisplay (t : Toc) (hv : t.Valid)
    (hd : t.kind = .DataFirst → 0 < t.data) :
    parse_cdtoc_metadata t.specDisplay = .ok (t.audio, t.dataOpt, t.leadout) := by
  obtain ⟨h1, h99, hpw, hhead, hlast, hmem, hdata, hlead, hkind⟩ := hv
  have hne : t.audio ≠ [] := by
    intro hnil; rw [hnil] at h1; simp at h1
  have hheadle : t.audio.headD 0 ≤ t.audio.getLastD 0 := headD_le_getLastD t.audio hpw hne
  have hpos : ∀ v ∈ t.audio, 0 < v ∧ v < M32 := fun v hv2 =>
    ⟨by have := pairwise_headD_le t.audio hpw v hv2; omega, hmem v hv2⟩
  unfold parse_cdtoc_metadata
  simp only []
  rw [trimAscii_eq_self _ (fun b hb => isWsByte_false_of_ge b (specDisplay_ge t b hb))]
  rw [splitPlus_specDisplay t]
  simp only []
  rw [htou8_minhexU t.audio.length (by omega) (by omega)]
  simp only []
  unfold Toc.specGroups
  cases hk : t.kind with
  | Audio =>
    rw [take_len_append _ _ _ (by simp), drop_len_append _ _ _ (by simp)]
    rw [mapM_htou32_minhexU t.audio hpos]
    simp only []
    rw [if_neg (by omega)]
    rw [if_neg (by simp)]
    rw [htou32_minhexU t.leadout (by omega) hlead]
    simp only [Toc.dataOpt]
    rw [if_pos hk]
  | CDExtra =>
    rw [hk] at hkind
    simp only [kindInvariant] at hkind
    obtain ⟨hk1, hk2⟩ := hkind
    rw [take_len_append _ _ _ (by simp), drop_len_append _ _ _ (by simp)]
    rw [mapM_htou32_minhexU t.audio hpos]
    simp only []
    rw [if_neg (by omega)]
    rw [if_neg (by simp)]
    rw [htou32_minhexU t.data (by omega) hdata]
    simp only []
    rw [htou32_minhexU t.leadout (by omega) hlead]
    simp only [Option.orElse]
    rw [if_pos (List.length_nil)]
    rw [if_pos (by omega)]
    simp only [Toc.dataOpt]
    rw [if_neg (by rw [hk]; simp)]
  | DataFirst =>
    rw [hk] at hkind
    simp only [kindInvariant] at hkind
    have hdp : 0 < t.data := hd hk
    rw [take_len_append _ _ _ (by simp), drop_len_append _ _ _ (by simp)]
    rw [mapM_htou32_minhexU t.audio hpos]
    simp only []
    rw [if_neg (by omega)]
    rw [if_neg (by simp)]
    rw [htou32_minhexU t.leadout (by omega) hlead]
    simp only []
    rw [htou32_x_prefixed (minhexU t.data)]
    simp only [Option.orElse, stripPrefixByte]
    simp only [if_true, Option.some_bind]
    rw [htou32_minhexU t.data hdp hdata]
    simp only []
    rw [if_pos (List.length_nil)]
    rw [if_neg (by omega)]
    simp only [Toc.dataOpt]
    rw [if_neg (by rw [hk]; simp)]

def tocX0 : Toc := ⟨.DataFirst, [150], 0, 151⟩

/-- C1 counterexample: a validated DataFirst disc whose data sector is zero
serializes with an empty data group ("1+96+97+X"), which the parser rejects
with `SectorSize` instead of reproducing the instance. -/
theorem c1_counterexample_datafirst_zero :
    tocX0.Valid ∧ Toc.from_cdtoc tocX0.displayBytes = .error .SectorSize := by decide

/-- C1 amended: parsing the canonical serialization reproduces any validated
TOC whose DataFirst data sector (when that kind applies) is nonzero. -/
theorem c1_display_parse_roundtrip (t : Toc) (hv : t.Valid)
    (hd : t.kind = .DataFirst → 0 < t.data) :
    Toc.from_cdtoc t.displayBytes = .ok t := by
  rw [displayBytes_eq_specRender t hv]
  unfold Toc.from_cdtoc
  rw [parse_specDisplay t hv hd]
  exact from_parts_of_valid t hv

/-- Witness for C1 at the four-track known-vector disc. -/
theorem c1_display_parse_roundtrip_witness :
    toc4.Valid ∧ (toc4.kind = .DataFirst → 0 < toc4.data) ∧
      Toc.from_cdtoc toc4.displayBytes = .ok toc4 :=
  ⟨by decide, by decide, c1_display_parse_roundtrip toc4 (by decide) (by decide)⟩

end Cdtoc

namespace Cdtoc

theorem headD_irrel (l : List Nat) (hne : l ≠ []) (d : Nat) : l.headD d = l.headD 0 := by
  cases l with
  | nil => exact absurd rfl hne
  | cons a r => rfl

theorem getLastD_eq_getLast (l : List Nat) (hne : l ≠ []) :
    l.getLastD 0 = l.getLast hne := by
  rw [List.getLastD_eq_getLast?, List.getLast?_eq_getLast l hne]
  rfl

theorem getLastD_irrel (l : List Nat) (hne : l ≠ []) (d : Nat) :
    l.getLastD d = l.getLastD 0 := by
  rw [List.getLastD_eq_getLast?, List.getLastD_eq_getLast?, List.getLast?_eq_getLast l hne]
  rfl

theorem getLastD_mem (l : List Nat) (hne : l ≠ []) : l.getLastD 0 ∈ l := by
  rw [getLastD_eq_getLast l hne]
  exact List.getLast_mem hne

theorem headD_mem (l : List Nat) (hne : l ≠ []) : l.headD 0 ∈ l := by
  cases l with
  | nil => exact absurd rfl hne
  | cons a r => simp

theorem headD_map (f : Nat → Nat) (l : List Nat) (hne : l ≠ []) :
    (l.map f).headD 0 = f (l.headD 0) := by
  cases l with
  | nil => exact absurd rfl hne
  | cons a r => rfl

theorem getLastD_map_gen (f : Nat → Nat) : ∀ (l : List Nat) (d : Nat),
    (l.map f).getLastD (f d) = f (l.getLastD d) := by
  intro l
  induction l with
  | nil => intro d; rfl
  | cons a r ih =>
    intro d
    simp only [List.map_cons, List.getLastD_cons]
    exact ih a

theorem getLastD_map (f : Nat → Nat) (l : List Nat) (hne : l ≠ []) :
    (l.map f).getLastD 0 = f (l.getLastD 0) := by
  have hmne : l.map f ≠ [] := by
    intro h0
    exact hne (by simpa using h0)
  rw [← getLastD_irrel (l.map f) hmne (f 0)]
  exact getLastD_map_gen f l 0

theorem getLastD_cons_of_ne_nil (a : Nat) (l : List Nat) (hne : l ≠ []) :
    (a :: l).getLastD 0 = l.getLastD 0 := by
  rw [List.getLastD_cons]
  exact getLastD_irrel l hne a

theorem getLastD_append_singleton (l : List Nat) (x : Nat) :
    (l ++ [x]).getLastD 0 = x := by
  rw [List.getLastD_eq_getLast?, List.getLast?_concat]
  rfl

theorem headD_append_left (l1 l2 : List Nat) (hne : l1 ≠ []) :
    (l1 ++ l2).headD 0 = l1.headD 0 := by
  cases l1 with
  | nil => exact absurd rfl hne
  | cons a r => rfl

theorem headD_dropLast (l : List Nat) (h2 : 2 ≤ l.length) :
    l.dropLast.headD 0 = l.headD 0 := by
  cases l with
  | nil => simp at h2
  | cons a r =>
    cases r with
    | nil => simp at h2
    | cons b r2 => rfl

theorem dropLast_pairwise (l : List Nat) (hp : l.Pairwise (· < ·)) :
    l.dropLast.Pairwise (· < ·) :=
  hp.sublist (List.dropLast_sublist l)

theorem mem_of_mem_dropLast {x : Nat} {l : List Nat} (h : x ∈ l.dropLast) : x ∈ l :=
  (List.dropLast_sublist l).subset h

theorem getLastD_dropLast_lt (l : List Nat) (hp : l.Pairwise (· < ·))
    (h2 : 2 ≤ l.length) : l.dropLast.getLastD 0 < l.getLastD 0 := by
  have hne : l ≠ [] := by intro h0; rw [h0] at h2; simp at h2
  have hdne : l.dropLast ≠ [] := by
    intro h0
    have hl := List.length_dropLast l
    rw [h0] at hl
    simp at hl
    omega
  have hd : l.dropLast ++ [l.getLast hne] = l := List.dropLast_append_getLast hne
  have hpw2 : (l.dropLast ++ [l.getLast hne]).Pairwise (· < ·) := by rw [hd]; exact hp
  have hall := (List.pairwise_append.mp hpw2).2.2
  have := hall _ (getLastD_mem l.dropLast hdne) (l.getLast hne) (by simp)
  rw [getLastD_eq_getLast l hne]
  exact this

theorem nudgeUp_ok : ∀ (diff : Nat) (l : List Nat), (nudgeUp diff l).2 = true →
    (nudgeUp diff l).1 = l.map (· + diff) ∧ ∀ v ∈ l, v + diff < M32 := by
  intro diff l
  induction l with
  | nil => intro _; exact ⟨rfl, by simp⟩
  | cons v r ih =>
    intro h
    simp only [nudgeUp] at h ⊢
    by_cases hb : v + diff < M32
    · rw [if_pos hb] at h ⊢
      simp only [] at h ⊢
      obtain ⟨h1, h2⟩ := ih h
      refine ⟨by rw [h1]; rfl, ?_⟩
      intro w hw
      rcases List.mem_cons.mp hw with rfl | hw2
      · exact hb
      · exact h2 w hw2
    · rw [if_neg hb] at h
      simp at h

end Cdtoc

namespace Cdtoc

theorem set_kind_error_unchanged (t : Toc) (k : TocKind) (e : TocError) :
    (t.set_kind k).1 = .error e → (t.set_kind k).2 = t := by
  unfold Toc.set_kind
  cases hk : t.kind <;> cases k <;> simp only [] <;> intro h
  case Audio.CDExtra =>
    by_cases hl : t.audio.length = 1
    · rw [if_pos hl]
    · rw [if_neg hl] at h; simp at h
  case Audio.DataFirst =>
    by_cases hl : t.audio.length = 1
    · rw [if_pos hl]
    · rw [if_neg hl] at h; simp at h
  all_goals first | rfl | simp at h
end Cdtoc

namespace Cdtoc

theorem valid_mk (kind : TocKind) (audio : List Nat) (data leadout : Nat) :
    Toc.Valid ⟨kind, audio, data, leadout⟩ ↔
      (1 ≤ audio.length ∧ audio.length ≤ 99 ∧ audio.Pairwise (· < ·) ∧
       150 ≤ audio.headD 0 ∧ audio.getLastD 0 < leadout ∧
       (∀ v ∈ audio, v < M32) ∧ data < M32 ∧ leadout < M32 ∧
       kindInvariant kind audio data leadout) := Iff.rfl

theorem getLastD_singleton (x : Nat) : ([x] : List Nat).getLastD 0 = x := rfl

theorem set_kind_ok_valid : ∀ (t : Toc) (k : TocKind), t.Valid →
    (k = .Audio → t.kind ≠ .Audio → t.audio.length ≤ 98) →
    (t.kind = .DataFirst → k ≠ .DataFirst → 150 ≤ t.data) →
    (t.set_kind k).1 = .ok () → (t.set_kind k).2.Valid := by
  intro t k hv hlen hdf
  obtain ⟨kind, audio, data, leadout⟩ := t
  obtain ⟨h1, h99, hpw, hhead, hlast, hmem, hdata, hlead, hkind⟩ := hv
  have hne : audio ≠ [] := by intro h0; rw [h0] at h1; simp at h1
  unfold Toc.set_kind
  simp only [] at hkind hlen hdf hhead hlast hmem h1 h99 hpw hdata hlead ⊢
  cases kind <;> cases k <;> simp only [] <;> intro h
  case Audio.Audio => exact ⟨h1, h99, hpw, hhead, hlast, hmem, hdata, hlead, hkind⟩
  case Audio.CDExtra =>
    by_cases hl : audio.length = 1
    · rw [if_pos hl] at h; simp at h
    · rw [if_neg hl] at h ⊢
      rw [valid_mk]
      have h2 : 2 ≤ audio.length := by omega
      have hlt := getLastD_dropLast_lt audio hpw h2
      refine ⟨?_, ?_, dropLast_pairwise audio hpw, ?_, ?_, ?_, ?_, hlead, ?_⟩
      · rw [List.length_dropLast]; omega
      · rw [List.length_dropLast]; omega
      · rw [headD_dropLast audio h2]; exact hhead
      · omega
      · exact fun v hv2 => hmem v (mem_of_mem_dropLast hv2)
      · exact hmem _ (getLastD_mem audio hne)
      · exact ⟨hlt, hlast⟩
  case Audio.DataFirst =>
    by_cases hl : audio.length = 1
    · rw [if_pos hl] at h; simp at h
    · rw [if_neg hl] at h ⊢
      cases audio with
      | nil => exact absurd rfl hne
      | cons a r =>
        have hrne : r ≠ [] := by
          intro h0
          rw [h0] at hl
          simp at hl
        have hall : ∀ x ∈ r, a < x := (List.pairwise_cons.mp hpw).1
        have hhr : a < r.headD 0 := hall _ (headD_mem r hrne)
        have hha : 150 ≤ a := by simpa using hhead
        have hgl : (a :: r).getLastD 0 = r.getLastD 0 := getLastD_cons_of_ne_nil a r hrne
        rw [valid_mk]
        simp only [List.tail_cons, List.headD_cons]
        simp only [List.length_cons] at h99
        rw [hgl] at hlast
        refine ⟨?_, by omega, (List.pairwise_cons.mp hpw).2, by omega, hlast, ?_,
          hmem a (by simp), hlead, ?_⟩
        · have := List.length_pos.mpr hrne
          omega
        · exact fun v hv2 => hmem v (by simp [hv2])
        · exact hhr
  case CDExtra.Audio =>
    have hlen98 : audio.length ≤ 98 := hlen rfl (by simp)
    obtain ⟨hk1, hk2⟩ := hkind
    rw [valid_mk]
    refine ⟨by simp, ?_, ?_, ?_, ?_, ?_, by unfold M32; omega, hlead, rfl⟩
    · simp only [List.length_append, List.length_singleton]; omega
    · rw [List.pairwise_append]
      refine ⟨hpw, List.pairwise_singleton _ _, ?_⟩
      intro x hx b hb
      rcases List.mem_singleton.mp hb with rfl
      have := pairwise_le_getLastD audio hpw x hx
      omega
    · rw [headD_append_left audio [data] hne]; exact hhead
    · rw [getLastD_append_singleton]; exact hk2
    · intro v hv2
      rcases List.mem_append.mp hv2 with hv3 | hv3
      · exact hmem v hv3
      · rcases List.mem_singleton.mp hv3 with rfl; exact hdata
  case CDExtra.CDExtra => exact ⟨h1, h99, hpw, hhead, hlast, hmem, hdata, hlead, hkind⟩
  case CDExtra.DataFirst =>
    obtain ⟨hk1, hk2⟩ := hkind
    cases audio with
    | nil => exact absurd rfl hne
    | cons a r =>
      have hha : 150 ≤ a := by simpa using hhead
      have hxd : ∀ x ∈ a :: r, x < data := by
        intro x hx
        have := pairwise_le_getLastD (a :: r) hpw x hx
        omega
      rw [valid_mk]
      simp only [List.cons_append, List.tail_cons, List.headD_cons]
      simp only [List.length_cons] at h99
      refine ⟨by simp, ?_, ?_, ?_, ?_, ?_, hmem a (by simp), hlead, ?_⟩
      · simp only [List.length_append, List.length_singleton]
        omega
      · rw [List.pairwise_append]
        refine ⟨(List.pairwise_cons.mp hpw).2, List.pairwise_singleton _ _, ?_⟩
        intro x hx b hb
        rcases List.mem_singleton.mp hb with rfl
        exact hxd x (by simp [hx])
      · cases r with
        | nil =>
          simp only [List.nil_append, List.headD_cons]
          have := hxd a (by simp)
          omega
        | cons b r2 =>
          simp only [List.cons_append, List.headD_cons]
          have hab : a < b := (List.pairwise_cons.mp hpw).1 b (by simp)
          omega
      · rw [getLastD_append_singleton]; exact hk2
      · intro v hv2
        rcases List.mem_append.mp hv2 with hv3 | hv3
        · exact hmem v (by simp [hv3])
        · rcases List.mem_singleton.mp hv3 with rfl; exact hdata
      · show a < (r ++ [data]).headD 0
        cases r with
        | nil =>
          simp only [List.nil_append, List.headD_cons]
          exact hxd a (by simp)
        | cons b r2 =>
          simp only [List.cons_append, List.headD_cons]
          exact (List.pairwise_cons.mp hpw).1 b (by simp)
  case DataFirst.Audio =>
    have hlen98 : audio.length ≤ 98 := hlen rfl (by simp)
    have h150 : 150 ≤ data := hdf rfl (by simp)
    have hda : data < audio.headD 0 := hkind
    rw [valid_mk]
    refine ⟨by simp, ?_, ?_, by simpa using h150, ?_, ?_, by unfold M32; omega, hlead, rfl⟩
    · simp only [List.length_cons]; omega
    · rw [List.pairwise_cons]
      refine ⟨?_, hpw⟩
      intro x hx
      have := pairwise_headD_le audio hpw x hx
      omega
    · rw [getLastD_cons_of_ne_nil data audio hne]; exact hlast
    · intro v hv2
      rcases List.mem_cons.mp hv2 with rfl | hv3
      · exact hdata
      · exact hmem v hv3
  case DataFirst.CDExtra =>
    have h150 : 150 ≤ data := hdf rfl (by simp)
    cases audio with
    | nil => exact absurd rfl hne
    | cons a r =>
      have hha : 150 ≤ a := by simpa using hhead
      have hda : data < a := by simpa using hkind
      have hxd : ∀ x ∈ a :: r, data < x := by
        intro x hx
        have := pairwise_headD_le (a :: r) hpw x hx
        simp only [List.headD_cons] at this
        omega
      have hdl : (data :: a :: r).dropLast = data :: (a :: r).dropLast := rfl
      have hgl : (data :: a :: r).getLastD 0 = (a :: r).getLastD 0 :=
        getLastD_cons_of_ne_nil data (a :: r) (by simp)
      rw [valid_mk, hdl, hgl]
      have hpwd : (data :: (a :: r).dropLast).Pairwise (· < ·) := by
        rw [List.pairwise_cons]
        exact ⟨fun x hx => hxd x (mem_of_mem_dropLast hx),
          dropLast_pairwise (a :: r) hpw⟩
      by_cases hl1 : r = []
      · subst hl1
        simp only [List.dropLast_single]
        rw [getLastD_singleton a] at hlast ⊢
        refine ⟨by simp, by simp, hpwd, by simpa using h150, ?_, ?_, hmem a (by simp),
          hlead, ?_⟩
        · rw [getLastD_singleton data]
          omega
        · intro v hv2
          rcases List.mem_cons.mp hv2 with rfl | hv3
          · exact hdata
          · simp at hv3
        · exact ⟨by rw [getLastD_singleton data]; exact hda, hlast⟩
      · have h2 : 2 ≤ (a :: r).length := by
          cases r with
          | nil => exact absurd rfl hl1
          | cons b r2 => simp
        have hdne : (a :: r).dropLast ≠ [] := by
          cases r with
          | nil => exact absurd rfl hl1
          | cons b r2 =>
            intro hc
            rw [show (a :: b :: r2).dropLast = a :: (b :: r2).dropLast from rfl] at hc
            simp at hc
        have hltl := getLastD_dropLast_lt (a :: r) hpw h2
        have hglc : (data :: (a :: r).dropLast).getLastD 0 = (a :: r).dropLast.getLastD 0 :=
          getLastD_cons_of_ne_nil data _ hdne
        simp only [List.length_cons] at h99
        refine ⟨by simp, ?_, hpwd, by simpa using h150, ?_, ?_,
          hmem _ (getLastD_mem (a :: r) (by simp)), hlead, ?_⟩
        · simp only [List.length_cons, List.length_dropLast, List.length_cons]
          omega
        · rw [hglc]; omega
        · intro v hv2
          rcases List.mem_cons.mp hv2 with rfl | hv3
          · exact hdata
          · exact hmem v (mem_of_mem_dropLast hv3)
        · exact ⟨by rw [hglc]; exact hltl, hlast⟩
  case DataFirst.DataFirst => exact ⟨h1, h99, hpw, hhead, hlast, hmem, hdata, hlead, hkind⟩
end Cdtoc

namespace Cdtoc

theorem set_audio_leadin_error_unchanged (t : Toc) (leadin : Nat) (e : TocError)
    (hse : e ≠ .SectorSize) :
    (t.set_audio_leadin leadin).1 = .error e → (t.set_audio_leadin leadin).2 = t := by
  unfold Toc.set_audio_leadin
  by_cases h150 : leadin < 150
  · rw [if_pos h150]; intro _; rfl
  · rw [if_neg h150]
    by_cases hdf : t.kind = .DataFirst
    · rw [if_pos hdf]; intro _; rfl
    · rw [if_neg hdf]
      simp only []
      by_cases hlt : leadin < t.audio_leadin
      · rw [if_pos hlt]; intro hc; simp at hc
      · rw [if_neg hlt]
        by_cases hgt : t.audio_leadin < leadin
        · rw [if_pos hgt]
          intro hc
          split at hc
          · split at hc
            · split at hc
              · split at hc
                · simp at hc
                · simp at hc
                  exact absurd hc.symm hse
              · simp at hc
                exact absurd hc.symm hse
            · split at hc
              · simp at hc
              · simp at hc
                exact absurd hc.symm hse
          · simp at hc
            exact absurd hc.symm hse
        · rw [if_neg hgt]
          intro hc
          simp at hc

end Cdtoc

namespace Cdtoc

theorem set_audio_leadin_ok_valid (t : Toc) (leadin : Nat) (hv : t.Valid) :
    (t.set_audio_leadin leadin).1 = .ok () → (t.set_audio_leadin leadin).2.Valid := by
  obtain ⟨h1, h99, hpw, hhead, hlast, hmem, hdata, hlead, hkind⟩ := hv
  have hne0 : t.audio ≠ [] := by intro h0; rw [h0] at h1; simp at h1
  have hcur : t.audio_leadin = t.audio.headD 0 := by
    unfold Toc.audio_leadin
    exact headD_irrel t.audio hne0 150
  have hhl : t.audio.headD 0 ≤ t.audio.getLastD 0 := headD_le_getLastD t.audio hpw hne0
  unfold Toc.set_audio_leadin
  by_cases h150 : leadin < 150
  · rw [if_pos h150]; intro hc; simp at hc
  · rw [if_neg h150]
    by_cases hdf : t.kind = .DataFirst
    · rw [if_pos hdf]; intro hc; simp at hc
    · rw [if_neg hdf]
      simp only []
      by_cases hlt : leadin < t.audio_leadin
      · rw [if_pos hlt]
        intro _
        rw [valid_mk]
        have hdle : ∀ v ∈ t.audio, t.audio_leadin - leadin ≤ v := by
          intro v hv2
          have := pairwise_headD_le t.audio hpw v hv2
          omega
        refine ⟨?_, ?_, ?_, ?_, ?_, ?_, ?_, ?_, ?_⟩
        · rw [List.length_map]; omega
        · rw [List.length_map]; omega
        · rw [List.pairwise_map]
          refine List.Pairwise.imp_of_mem ?_ hpw
          intro a b ha _ hab
          have := hdle a ha
          omega
        · rw [headD_map _ _ hne0]
          omega
        · rw [getLastD_map _ _ hne0]
          have := hdle _ (getLastD_mem t.audio hne0)
          omega
        · intro v hv2
          obtain ⟨w, hw, rfl⟩ := List.mem_map.mp hv2
          have := hmem w hw
          omega
        · split <;> omega
        · omega
        · cases hk2 : t.kind with
          | Audio =>
            rw [hk2] at hkind
            have hz : t.data = 0 := hkind
            have hh2 : t.has_data = false := by unfold Toc.has_data; rw [hk2]; rfl
            rw [hh2]
            simp only [Bool.false_eq_true, if_false]
            exact hz
          | CDExtra =>
            rw [hk2] at hkind
            obtain ⟨hi1, hi2⟩ := hkind
            have hh2 : t.has_data = true := by unfold Toc.has_data; rw [hk2]; rfl
            rw [hh2]
            rw [if_pos rfl]
            have hgm := hdle _ (getLastD_mem t.audio hne0)
            refine ⟨?_, ?_⟩
            · rw [getLastD_map _ _ hne0]
              omega
            · omega
          | DataFirst => exact absurd hk2 hdf
      · rw [if_neg hlt]
        by_cases hgt : t.audio_leadin < leadin
        · rw [if_pos hgt]
          by_cases hs : (nudgeUp (leadin - t.audio_leadin) t.audio).2 = true
          · rw [if_pos hs]
            obtain ⟨hstep, hbound⟩ := nudgeUp_ok _ _ hs
            by_cases hhd : t.has_data = true
            · rw [if_pos hhd]
              by_cases hdb : t.data + (leadin - t.audio_leadin) < M32
              · rw [if_pos hdb]
                by_cases hlb : t.leadout + (leadin - t.audio_leadin) < M32
                · rw [if_pos hlb]
                  intro _
                  rw [valid_mk, hstep]
                  have hk2 : t.kind = .CDExtra := by
                    cases hc2 : t.kind with
                    | Audio =>
                      have : t.has_data = false := by unfold Toc.has_data; rw [hc2]; rfl
                      rw [this] at hhd
                      simp at hhd
                    | CDExtra => rfl
                    | DataFirst => exact absurd hc2 hdf
                  rw [hk2] at hkind
                  obtain ⟨hi1, hi2⟩ := hkind
                  refine ⟨?_, ?_, ?_, ?_, ?_, ?_, hdb, hlb, ?_⟩
                  · rw [List.length_map]; omega
                  · rw [List.length_map]; omega
                  · rw [List.pairwise_map]
                    exact List.Pairwise.imp (fun hab => by omega) hpw
                  · rw [headD_map _ _ hne0]
                    omega
                  · rw [getLastD_map _ _ hne0]
                    omega
                  · intro v hv2
                    obtain ⟨w, hw, rfl⟩ := List.mem_map.mp hv2
                    exact hbound w hw
                  · rw [hk2]
                    refine ⟨?_, ?_⟩
                    · rw [getLastD_map _ _ hne0]
                      omega
                    · omega
                · rw [if_neg hlb]; intro hc; simp at hc
              · rw [if_neg hdb]; intro hc; simp at hc
            · rw [if_neg hhd]
              by_cases hlb : t.leadout + (leadin - t.audio_leadin) < M32
              · rw [if_pos hlb]
                intro _
                rw [valid_mk, hstep]
                have hk2 : t.kind = .Audio := by
                  cases hc2 : t.kind with
                  | Audio => rfl
                  | CDExtra =>
                    have : t.has_data = true := by unfold Toc.has_data; rw [hc2]; rfl
                    exact absurd this hhd
                  | DataFirst => exact absurd hc2 hdf
                rw [hk2] at hkind
                have hz : t.data = 0 := hkind
                refine ⟨?_, ?_, ?_, ?_, ?_, ?_, hdata, hlb, ?_⟩
                · rw [List.length_map]; omega
                · rw [List.length_map]; omega
                · rw [List.pairwise_map]
                  exact List.Pairwise.imp (fun hab => by omega) hpw
                · rw [headD_map _ _ hne0]
                  omega
                · rw [getLastD_map _ _ hne0]
                  omega
                · intro v hv2
                  obtain ⟨w, hw, rfl⟩ := List.mem_map.mp hv2
                  exact hbound w hw
                · rw [hk2]
                  exact hz
              · rw [if_neg hlb]; intro hc; simp at hc
          · rw [if_neg hs]; intro hc; simp at hc
        · rw [if_neg hgt]
          intro _
          exact ⟨h1, h99, hpw, hhead, hlast, hmem, hdata, hlead, hkind⟩

end Cdtoc

namespace Cdtoc

def tocBig : Toc := ⟨.Audio, [150], 0, 4294967295⟩

def tocDF : Toc := ⟨.DataFirst, [200, 300], 100, 400⟩

/-- C4 counterexample: nudging the leadin of a validated disc whose leadout
sits at the u32 ceiling overflows only at the leadout step, so the error
return leaves the audio sectors already shifted (not bit-for-bit unchanged);
and reclassifying a validated DataFirst disc with a data sector below 150 as
Audio succeeds yet breaks the 150-sector leadin invariant. -/
theorem c4_counterexample_mutators :
    (tocBig.Valid ∧ (tocBig.set_audio_leadin 151).1 = .error .SectorSize ∧
      (tocBig.set_audio_leadin 151).2 ≠ tocBig) ∧
    (tocDF.Valid ∧ (tocDF.set_kind .Audio).1 = .ok () ∧
      ¬ (tocDF.set_kind .Audio).2.Valid) := by decide

/-- C4 amended: `set_kind` never mutates on error, and on success restores
every §3 invariant provided the track count stays within 99 and a data
sector promoted into the leadin position is itself a plausible leadin
(at least 150); `set_audio_leadin` leaves the receiver unchanged on its
non-overflow errors and restores every invariant on success. -/
theorem c4_mutators_atomic (t : Toc) (k : TocKind) (leadin : Nat)
    (e1 e2 : TocError) (hv : t.Valid)
    (hlen : k = .Audio → t.kind ≠ .Audio → t.audio.length ≤ 98)
    (hdf : t.kind = .DataFirst → k ≠ .DataFirst → 150 ≤ t.data)
    (hse : e2 ≠ .SectorSize) :
    ((t.set_kind k).1 = .error e1 → (t.set_kind k).2 = t) ∧
    ((t.set_kind k).1 = .ok () → (t.set_kind k).2.Valid) ∧
    ((t.set_audio_leadin leadin).1 = .error e2 → (t.set_audio_leadin leadin).2 = t) ∧
    ((t.set_audio_leadin leadin).1 = .ok () → (t.set_audio_leadin leadin).2.Valid) :=
  ⟨set_kind_error_unchanged t k e1, set_kind_ok_valid t k hv hlen hdf,
   set_audio_leadin_error_unchanged t leadin e2 hse,
   set_audio_leadin_ok_valid t leadin hv⟩

/-- Witness for C4 at the four-track known-vector disc. -/
theorem c4_mutators_atomic_witness :
    toc4.Valid ∧
    (TocKind.CDExtra = .Audio → toc4.kind ≠ .Audio → toc4.audio.length ≤ 98) ∧
    (toc4.kind = .DataFirst → TocKind.CDExtra ≠ .DataFirst → 150 ≤ toc4.data) ∧
    TocError.LeadinSize ≠ .SectorSize ∧
    (((toc4.set_kind .CDExtra).1 = .error .NoAudio → (toc4.set_kind .CDExtra).2 = toc4) ∧
     ((toc4.set_kind .CDExtra).1 = .ok () → (toc4.set_kind .CDExtra).2.Valid) ∧
     ((toc4.set_audio_leadin 182).1 = .error .LeadinSize →
       (toc4.set_audio_leadin 182).2 = toc4) ∧
     ((toc4.set_audio_leadin 182).1 = .ok () → (toc4.set_audio_leadin 182).2.Valid)) :=
  ⟨by decide, by decide, by decide, by decide,
   c4_mutators_atomic toc4 .CDExtra 182 .NoAudio .LeadinSize (by decide) (by decide)
     (by decide) (by decide)⟩

end Cdtoc
